import Mathlib

/-!
Verification of the row-processing pipeline of the WordPress CSV bulk
uploader/updater (`bulk-upload.js`, create mode; `bulk-update.js`, update
mode).  The JavaScript source is shallowly embedded: every remote call is an
oracle field of a `WpEnv` record, each operation returns its result together
with the list of remote-call/delay events it performed, and exceptions are
`Except` values caught exactly where the source catches them.
-/

namespace Wp

/-! ## String primitives used by `normalizeTitle`

`normalizeTitle` (bulk-upload.js, lines 422-439) is a chain of JavaScript
global regex replacements.  Each replacement is embedded as a one-pass
left-to-right scanner equivalent to the JS `String.replace(/re/g, ...)`
semantics for the concrete patterns used by the source:

* `/<[^>]*>/g → ''`  — `stripTags`: on `<`, if a later `>` exists the match
  consumes through the first `>`; otherwise the regex cannot match at this
  or any later position (no `>` remains), so the rest is kept.
* fixed-text entity patterns (`/&nbsp;/g` etc.) — `replaceStr`: a matcher
  with an explicit match-progress counter; it is exact for patterns whose
  first character occurs nowhere else in the pattern, which holds for every
  pattern used (`&` only at position 0).
* `/&[^;]+;/g → ''` — `stripEntities`: on `&`, the match consumes through the
  first `;` provided at least one non-`;` character precedes it.
* `/\s+/g → ' '` — `collapseWs`.

`Char.toLower` models `String.prototype.toLowerCase` on the basic-latin
range (the only range Lean's `Char.toLower` maps), and `jsWs` models the
membership test of the JS `\s` class on the whitespace characters relevant
here (a representative subset of the full Unicode class).
-/

/-- Whitespace characters: the ASCII whitespace plus NBSP, modelling JS `\s`
on the characters this pipeline can produce or meet. -/
def jsWs (c : Char) : Bool :=
  c = ' ' || c = '\t' || c = '\n' || c = '\r' || c = '\x0b' || c = '\x0c' || c = '\u00A0'

/-- Scanner for `/<[^>]*>/g → ''`.  `buf = some pending` means we are inside
a candidate tag whose characters so far (reversed) are `pending`; if the
input ends before a `>` the pending characters are emitted unchanged, as the
regex never matched there. -/
def stripTagsAux : List Char → Option (List Char) → List Char
  | [], none => []
  | [], some buf => buf.reverse
  | c :: cs, none =>
    if c = '<' then stripTagsAux cs (some [c]) else c :: stripTagsAux cs none
  | c :: cs, some buf =>
    if c = '>' then stripTagsAux cs none else stripTagsAux cs (some (c :: buf))

/-- `str.replace(/<[^>]*>/g, '')`. -/
def stripTags (s : List Char) : List Char := stripTagsAux s none

/-- Scanner for `str.replace(/pat/g, repl)` with a fixed text pattern whose
first character occurs only at position 0 of the pattern (true of every
entity pattern in the source); `k` is the number of pattern characters
matched so far. -/
def replAux (pat repl : List Char) : Nat → List Char → List Char
  | k, [] => pat.take k
  | k, c :: cs =>
    if pat[k]? = some c then
      if k + 1 = pat.length then repl ++ replAux pat repl 0 cs
      else replAux pat repl (k + 1) cs
    else
      pat.take k ++
        (if pat[0]? = some c then replAux pat repl 1 cs else c :: replAux pat repl 0 cs)

/-- `str.replace(/pat/g, repl)` for a fixed text pattern. -/
def replaceStr (pat repl s : List Char) : List Char := replAux pat repl 0 s

/-- Scanner for `/&[^;]+;/g → ''`.  `acc = some mid` means we are after a `&`
with `mid` (reversed) the non-`;` characters read since; a `;` with nonempty
`mid` completes a match (dropped), a `;` right after the `&` is a failed
match (both characters kept), end of input emits the pending text. -/
def stripEntAux : List Char → Option (List Char) → List Char
  | [], none => []
  | [], some acc => '&' :: acc.reverse
  | c :: cs, none =>
    if c = '&' then stripEntAux cs (some []) else c :: stripEntAux cs none
  | c :: cs, some acc =>
    if c = ';' then
      if acc = [] then '&' :: ';' :: stripEntAux cs none else stripEntAux cs none
    else stripEntAux cs (some (c :: acc))

/-- `str.replace(/&[^;]+;/g, '')`. -/
def stripEntities (s : List Char) : List Char := stripEntAux s none

/-- Scanner for `/\s+/g → ' '`; `inWs` records whether the previous input
character was whitespace (the emitted `' '` stands at the start of each
whitespace run). -/
def collapseWsAux : List Char → Bool → List Char
  | [], _ => []
  | c :: cs, inWs =>
    if jsWs c then
      if inWs then collapseWsAux cs true else ' ' :: collapseWsAux cs true
    else c :: collapseWsAux cs false

/-- `str.replace(/\s+/g, ' ')`. -/
def collapseWs (s : List Char) : List Char := collapseWsAux s false

/-- `str.trim()`. -/
def trimL (s : List Char) : List Char :=
  ((s.dropWhile jsWs).reverse.dropWhile jsWs).reverse

/-- The normalization chain of `normalizeTitle` (bulk-upload.js 426-438), in
source order: strip tags, decode the fixed entities, remove remaining
entities, collapse whitespace, lowercase, trim. -/
def normalizeTitleL (s : List Char) : List Char :=
  trimL (List.map Char.toLower (collapseWs (stripEntities
    (replaceStr "&#038;".data "&".data
      (replaceStr "&#39;".data "'".data
        (replaceStr "&#8216;".data "'".data
          (replaceStr "&#8217;".data "'".data
            (replaceStr "&quot;".data "\"".data
              (replaceStr "&amp;".data "&".data
                (replaceStr "&nbsp;".data " ".data (stripTags s)))))))))))

/-- `normalizeTitle` (bulk-upload.js 422-439): `if (!str) return ''` then the
replacement chain. -/
def normalizeTitle (s : String) : String :=
  if s = "" then "" else String.mk (normalizeTitleL s.data)

/-! ## Invariants of the normalization pipeline

Idempotence of `normalizeTitle` is proved by showing that the output of one
pass satisfies four invariants, each of which makes one stage of a second
pass the identity. -/

/-- Every `<` in the list has no `>` anywhere after it (so `/<[^>]*>/` cannot
match). -/
def TagFree : List Char → Prop
  | [] => True
  | c :: cs => (c = '<' → '>' ∉ cs) ∧ TagFree cs

/-- Every `&` in the list is immediately followed by `;` or has no `;`
anywhere after it (so neither `/&[^;]+;/` nor any of the fixed entity
patterns can match). -/
def AmpOk : List Char → Prop
  | [] => True
  | c :: cs => (c = '&' → cs.head? = some ';' ∨ ';' ∉ cs) ∧ AmpOk cs

/-- All whitespace characters are plain spaces and no two are adjacent (so
`/\s+/ → ' '` is the identity). -/
def WsNorm (s : List Char) : Prop :=
  (∀ c ∈ s, jsWs c = true → c = ' ') ∧
    s.Chain' fun a b => ¬(jsWs a = true ∧ jsWs b = true)

/-- All characters are fixed by `Char.toLower`. -/
def LowerFixed (s : List Char) : Prop := ∀ c ∈ s, Char.toLower c = c

/-! ## Data model of the row pipeline -/

/-- A taxonomy term as returned by the REST API. -/
structure Term where
  id : Nat
  name : String
deriving DecidableEq, Repr

/-- A post as returned by a listing page; `title` is the rendered title the
source reads via `post.title?.rendered || post.title?.raw || post.title || ''`. -/
structure RemotePost where
  id : Nat
  title : String
  status : String
deriving DecidableEq, Repr

/-- An axios-style error: `message` plus `error.response?.data` (kept here
already JSON-stringified) when the remote answered with a body. -/
structure ApiError where
  message : String
  responseData : Option String
deriving DecidableEq, Repr

/-- The row-boundary catch blocks: `result.error = error.message`, replaced by
`` `${error.message}: ${JSON.stringify(error.response.data)}` `` when response
data exists (bulk-upload.js 665-668, bulk-update.js 1436-1439). -/
def errString (e : ApiError) : String :=
  match e.responseData with
  | none => e.message
  | some d => e.message ++ ": " ++ d

/-- Response of a post create/update call (`response.data.id`,
`response.data.status`). -/
structure PostResp where
  id : Nat
  status : String
deriving DecidableEq, Repr

/-- The body of a media download: the `content-type`/`content-disposition`
headers (`none` models an absent header) and an opaque token standing for the
byte buffer. -/
structure DownloadResp where
  dataTok : Nat
  contentType : Option String
  contentDisposition : Option String
deriving DecidableEq, Repr

/-- `{buffer, mimeType, fileName}` as assembled before `POST /media`. -/
structure MediaAsset where
  dataTok : Nat
  mimeType : String
  fileName : String
deriving DecidableEq, Repr

/-- Content of a local image file. -/
structure LocalFile where
  dataTok : Nat
deriving DecidableEq, Repr

/-- The payload object assembled for `POST /posts`; a field is `none` when
the source never set the corresponding key on the object.  The
`yoast_title`, `yoast_metadesc` and `yoast_focuskw` fields stand for the
source keys `_yoast_wpseo_title`, `_yoast_wpseo_metadesc` and
`_yoast_wpseo_focuskw`. -/
structure PostData where
  title : Option String := none
  content : Option String := none
  status : Option String := none
  slug : Option String := none
  excerpt : Option String := none
  acf : Option String := none
  categories : Option (List Nat) := none
  tags : Option (List Nat) := none
  featured_media : Option Nat := none
  meta_title : Option String := none
  yoast_title : Option String := none
  rank_math_title : Option String := none
  meta_description : Option String := none
  yoast_metadesc : Option String := none
  rank_math_description : Option String := none
  yoast_focuskw : Option String := none
  rank_math_focus_keyword : Option String := none
deriving DecidableEq, Repr

/-- `Object.keys(updateData).length === 0` (bulk-update.js 1414) for the
sparse update payload: update mode only ever sets the first nine keys, so
the test is equivalent to all of them being unset. -/
def PostData.isEmpty (d : PostData) : Bool :=
  d.title.isNone && d.content.isNone && d.status.isNone && d.slug.isNone &&
    d.excerpt.isNone && d.acf.isNone && d.categories.isNone && d.tags.isNone &&
    d.featured_media.isNone

/-- The per-row result object
`{rowNumber, title, action, postId, status, error}`; `action = none` models
the JS `null`. -/
structure Outcome where
  rowNumber : Nat
  title : String
  action : Option String
  postId : Option Nat
  status : Option String
  error : Option String
deriving DecidableEq, Repr

/-- One CSV row; `none` models an absent column. -/
structure Row where
  title : Option String := none
  content : Option String := none
  status : Option String := none
  slug : Option String := none
  excerpt : Option String := none
  categories : Option String := none
  tags : Option String := none
  featured_image_path : Option String := none
  featured_image_url : Option String := none
  acf_json : Option String := none
  meta_title : Option String := none
  meta_description : Option String := none
  focus_keyword : Option String := none
  post_id : Option String := none
deriving DecidableEq, Repr

/-- `String.prototype.trim` over the same whitespace set as the rest of this
model. -/
def jsTrim (s : String) : String := String.mk (trimL s.data)

/-- `String.prototype.toLowerCase` (basic-latin range, as in
`normalizeTitle`). -/
def jsLower (s : String) : String := String.mk (s.data.map Char.toLower)

/-- Truthiness of `field?.trim()`: the column exists and trims to nonempty. -/
def pres (f : Option String) : Bool :=
  match f with
  | none => false
  | some s => jsTrim s ≠ ""

/-- `field.trim()`, with absent columns mapped to the empty string. -/
def val (f : Option String) : String := jsTrim (f.getD "")

/-- `String.prototype.split(',')` on a character list: each comma starts a
new (possibly empty) segment. -/
def splitCommaAux : List Char → List Char → List (List Char)
  | [], acc => [acc.reverse]
  | c :: rest, acc =>
    if c = ',' then acc.reverse :: splitCommaAux rest []
    else splitCommaAux rest (c :: acc)

/-- `String.prototype.split(',')`. -/
def splitComma (s : String) : List String :=
  (splitCommaAux s.data []).map String.mk

/-- A GET issued by the pipeline, with the query parameters the source sends. -/
inductive ReadQ
  | postsPage (perPage page : Nat) (status orderby order : String)
  | postsBySlug (slug : String) (perPage : Nat)
  | postById (id : String)
  | getPost (id : Nat)
  | termSearch (taxonomy search : String) (perPage : Nat)
  | download (url : String)
deriving DecidableEq, Repr

/-- A write (POST) issued by the pipeline. -/
inductive WriteQ
  | termCreate (taxonomy name : String)
  | media (fileName mimeType : String)
  | postCreate (d : PostData)
  | postUpdate (id : Nat) (d : PostData)
deriving DecidableEq, Repr

/-- One event of a row trace: a read-only remote call, a remote write, or an
awaited pacing delay (`await sleep(config.request_delay_ms)`). -/
inductive Ev
  | read (q : ReadQ)
  | write (w : WriteQ)
  | delay
deriving DecidableEq, Repr

/-- Oracle for the remote REST API and the ambient JS library functions; an
`Except.error` models the corresponding `await`/call throwing. -/
structure WpEnv where
  /-- `GET /posts?per_page=100&page=k&status=any&orderby=date&order=desc`:
  the listing page for a page number (the fixed parameters are recorded in
  the trace). -/
  postsPage : Nat → Except ApiError (List RemotePost)
  /-- `GET /posts?slug=...&per_page=1`. -/
  postsBySlug : String → Except ApiError (List RemotePost)
  /-- `GET /posts/{id}` with the raw CSV id string; the success value is
  `response.data.id`. -/
  postById : String → Except ApiError Nat
  /-- `GET /posts/{postId}` fetching the existing post in update mode; its
  body is never read by the source, hence `Unit`. -/
  getPost : Nat → Except ApiError Unit
  /-- `GET /{taxonomy}?search=...&per_page=100`. -/
  termSearch : String → String → Except ApiError (List Term)
  /-- `POST /{taxonomy}` with `{name}`. -/
  termCreate : String → String → Except ApiError Term
  /-- `axios.get(url, {responseType: 'arraybuffer'})`. -/
  download : String → Except ApiError DownloadResp
  /-- `fs.existsSync` + `fs.readFileSync` of the resolved path (`none` =
  the file does not exist). -/
  localFile : String → Option LocalFile
  /-- `POST /media`; the success value is `response.data.id`. -/
  mediaUpload : MediaAsset → Except ApiError Nat
  /-- `POST /posts`. -/
  createPost : PostData → Except ApiError PostResp
  /-- `POST /posts/{id}`. -/
  updateCall : Nat → PostData → Except ApiError PostResp
  /-- `JSON.parse` (`none` = throws); the success value is an opaque token
  for the parsed ACF object. -/
  jsonParse : String → Option String
  /-- `mime.extension(contentType)` (`none` = `false`). -/
  mimeExt : String → Option String
  /-- `mime.lookup(pathOrUrl)` (`none` = `false`). -/
  mimeLookup : String → Option String

/-! ## Operations -/

/-- `getOrCreateTerm` (bulk-upload.js 188-220): search the taxonomy, pick the
exact case-insensitive match, otherwise sleep then create; every failure is
caught and yields `none`. -/
def getOrCreateTerm (env : WpEnv) (name : String) (taxonomy : String) :
    Option Nat × List Ev :=
  if jsTrim name = "" then (none, [])
  else
    match env.termSearch taxonomy (jsTrim name) with
    | .error _ => (none, [Ev.read (.termSearch taxonomy (jsTrim name) 100)])
    | .ok terms =>
      match terms.find? (fun t => jsLower t.name == jsLower (jsTrim name)) with
      | some t => (some t.id, [Ev.read (.termSearch taxonomy (jsTrim name) 100)])
      | none =>
        match env.termCreate taxonomy (jsTrim name) with
        | .ok t =>
          (some t.id, [Ev.read (.termSearch taxonomy (jsTrim name) 100), .delay,
            .write (.termCreate taxonomy (jsTrim name))])
        | .error _ =>
          (none, [Ev.read (.termSearch taxonomy (jsTrim name) 100), .delay,
            .write (.termCreate taxonomy (jsTrim name))])

/-- The per-name loop of `resolveTerms` (bulk-upload.js 233-239): resolve
each name, keep the truthy ids, and await the pacing delay after every name
(also when the term already existed and only a read was performed). -/
def resolveTermsGo (env : WpEnv) (taxonomy : String) :
    List String → List Nat × List Ev
  | [] => ([], [])
  | n :: rest =>
    let r := getOrCreateTerm env n taxonomy
    let rest' := resolveTermsGo env taxonomy rest
    ((match r.1 with | some i => i :: rest'.1 | none => rest'.1),
      r.2 ++ [Ev.delay] ++ rest'.2)

/-- `resolveTerms` (bulk-upload.js 225-242). -/
def resolveTerms (env : WpEnv) (termString : String) (taxonomy : String) :
    List Nat × List Ev :=
  if jsTrim termString = "" then ([], [])
  else
    let names := ((splitComma termString).map jsTrim).filter (· ≠ "")
    resolveTermsGo env taxonomy names

/-- `findPostBySlug` (bulk-upload.js 392-411): point query, first hit,
failures yield `null`. -/
def findPostBySlug (env : WpEnv) (slug : String) : Option Nat × List Ev :=
  if jsTrim slug = "" then (none, [])
  else
    match env.postsBySlug (jsTrim slug) with
    | .ok [] => (none, [Ev.read (.postsBySlug (jsTrim slug) 1)])
    | .ok (p :: _) => (some p.id, [Ev.read (.postsBySlug (jsTrim slug) 1)])
    | .error _ => (none, [Ev.read (.postsBySlug (jsTrim slug) 1)])

/-- `findPostById` (bulk-update.js 1190-1205): any error — the 404 case
included — yields `null`. -/
def findPostById (env : WpEnv) (postId : String) : Option Nat × List Ev :=
  if postId = "" then (none, [])
  else
    match env.postById postId with
    | .ok i => (some i, [Ev.read (.postById postId)])
    | .error _ => (none, [Ev.read (.postById postId)])

/-- The pagination loop of `findPostByTitle` (bulk-upload.js 451-506).  The
`fuel` argument only totalizes the recursion: the source loop stops by
itself once `page > 10`, so with `fuel = 10` starting from `page = 1` the
fuel is never exhausted. -/
def findLoop (env : WpEnv) (target : String) : Nat → Nat → Option Nat × List Ev
  | 0, _ => (none, [])
  | fuel + 1, page =>
    let rq := Ev.read (.postsPage 100 page "any" "date" "desc")
    match env.postsPage page with
    | .error _ => (none, [rq])
    | .ok posts =>
      if posts.isEmpty then (none, [rq])
      else
        match posts.find? (fun p => normalizeTitle p.title == target) with
        | some p => (some p.id, [rq])
        | none =>
          if posts.length < 100 then (none, [rq])
          else if page + 1 > 10 then (none, [rq])
          else
            let r := findLoop env target fuel (page + 1)
            (r.1, rq :: r.2)

/-- `findPostByTitle` (bulk-upload.js 416-515): normalized-title scan over
the full listing, paged 100 at a time, newest first, across all statuses;
errors are caught and yield `null`. -/
def findPostByTitle (env : WpEnv) (title : String) : Option Nat × List Ev :=
  if jsTrim title = "" then (none, [])
  else findLoop env (normalizeTitle title) 10 1

/-- `url.startsWith('http://') || url.startsWith('https://')`. -/
def isHttp (s : String) : Bool :=
  "http://".data.isPrefixOf s.data || "https://".data.isPrefixOf s.data

/-- Substring occurrence (`String.includes`). -/
def containsSub (pat : List Char) : List Char → Bool
  | [] => pat.isPrefixOf []
  | c :: cs => pat.isPrefixOf (c :: cs) || containsSub pat cs

/-- `s.includes(pat)`. -/
def strIncludes (s pat : String) : Bool := containsSub pat.data s.data

/-- The character class `[a-zA-Z0-9_-]`. -/
def idChar (c : Char) : Bool :=
  ('a' ≤ c && c ≤ 'z') || ('A' ≤ c && c ≤ 'Z') || ('0' ≤ c && c ≤ '9') ||
    c = '_' || c = '-'

/-- The capture of the first match of `/\/d\/([a-zA-Z0-9_-]+)/`. -/
def scanSlashD : List Char → Option (List Char)
  | '/' :: 'd' :: '/' :: d :: rest =>
    if idChar d then some (d :: rest.takeWhile idChar)
    else scanSlashD ('d' :: '/' :: d :: rest)
  | _ :: cs => scanSlashD cs
  | [] => none

/-- The capture of the first match of `/id=([a-zA-Z0-9_-]+)/`. -/
def scanIdEq : List Char → Option (List Char)
  | 'i' :: 'd' :: '=' :: d :: rest =>
    if idChar d then some (d :: rest.takeWhile idChar)
    else scanIdEq ('d' :: '=' :: d :: rest)
  | _ :: cs => scanIdEq cs
  | [] => none

/-- `convertGoogleDriveUrl` (bulk-upload.js 311-328): on a
`drive.google.com` URL, extract the file id from a `/d/<ID>` segment or an
`id=<ID>` parameter and build the direct-download URL; otherwise return the
URL unchanged. -/
def convertGoogleDriveUrl (url : String) : String :=
  if url = "" then url
  else if strIncludes url "drive.google.com" then
    match scanSlashD url.data with
    | some fid => "https://drive.google.com/uc?export=download&id=" ++ String.mk fid
    | none =>
      match scanIdEq url.data with
      | some fid => "https://drive.google.com/uc?export=download&id=" ++ String.mk fid
      | none => url
  else url

/-- Drop through the first `://`. -/
def dropScheme : List Char → List Char
  | ':' :: '/' :: '/' :: rest => rest
  | _ :: cs => dropScheme cs
  | [] => []

/-- `new URL(u).pathname`, modelled for absolute `http(s)` URLs: skip scheme
and host, keep from the first `/` up to `?` or `#`; `/` without a path. -/
def urlPathname (u : String) : String :=
  let rest := (dropScheme u.data).dropWhile fun c => c ≠ '/' && c ≠ '?' && c ≠ '#'
  match rest with
  | '/' :: _ => String.mk (rest.takeWhile fun c => c ≠ '?' && c ≠ '#')
  | _ => "/"

/-- `path.basename`: the part after the last `/`. -/
def basename (p : String) : String :=
  String.mk (p.data.reverse.takeWhile (· ≠ '/')).reverse

/-- `path.extname(name).replace('.', '')`: the suffix after the last `.` of
the basename; empty when there is no dot or the basename starts with it. -/
def extnameNoDot (name : String) : String :=
  let base := (basename name).data
  let revTail := base.reverse.takeWhile (· ≠ '.')
  if revTail.length < base.length && revTail.length + 1 < base.length then
    String.mk revTail.reverse
  else ""

/-- The capture of `/filename="?([^"]+)"?/` on a Content-Disposition header;
`none` when there is no match (an empty capture after `filename="` is
treated as no match rather than rescanned further right). -/
def filenameFromCD : List Char → Option String
  | 'f' :: 'i' :: 'l' :: 'e' :: 'n' :: 'a' :: 'm' :: 'e' :: '=' :: rest =>
    let rest2 := match rest with
      | '"' :: r => r
      | r => r
    let cap := rest2.takeWhile (· ≠ '"')
    if cap = [] then none else some (String.mk cap)
  | _ :: cs => filenameFromCD cs
  | [] => none

/-- `fileName.replace(new RegExp(`\.${ext}$`), ...)` for an extension free
of regex metacharacters: drop the trailing `.ext`. -/
def stripSuffixDotExt (f ext : String) : String :=
  String.mk (f.data.take (f.data.length - (ext.data.length + 1)))

/-- `downloadImageFromUrl` (bulk-upload.js 247-306, create mode): fetch,
reject HTML content-type responses, derive the filename from
Content-Disposition or the URL path, and reconcile the filename extension
with the declared MIME type. -/
def downloadImageCreate (env : WpEnv) (imageUrl : String) :
    Option MediaAsset × List Ev :=
  let rq := Ev.read (.download imageUrl)
  match env.download imageUrl with
  | .error _ => (none, [rq])
  | .ok resp =>
    if (match resp.contentType with
        | some ct => strIncludes ct "text/html"
        | none => false) then
      (none, [rq])
    else
      let fileName0 :=
        match resp.contentDisposition with
        | some cd =>
          match filenameFromCD cd.data with
          | some f => f
          | none => "image.jpg"
        | none =>
          let b := basename (urlPathname imageUrl)
          if b = "" then "image" else b
      let extFromMime :=
        match resp.contentType with
        | some ct => env.mimeExt ct
        | none => none
      let fileName :=
        match extFromMime with
        | none => fileName0
        | some ext =>
          let currentExt := extnameNoDot fileName0
          if currentExt ≠ ext then
            if currentExt = "" || currentExt = "uc" then fileName0 ++ "." ++ ext
            else stripSuffixDotExt fileName0 currentExt ++ "." ++ ext
          else fileName0
      let mimeType :=
        match resp.contentType with
        | some ct => ct
        | none =>
          match env.mimeLookup imageUrl with
          | some m => m
          | none => "image/jpeg"
      (some ⟨resp.dataTok, mimeType, fileName⟩, [rq])

/-- `downloadImageFromUrl` (bulk-update.js 1117-1133, update mode): plain
fetch returning buffer, header MIME type and URL-path basename; no HTML
check, no Content-Disposition handling, no extension reconciliation. -/
def downloadImageUpdate (env : WpEnv) (imageUrl : String) :
    Option MediaAsset × List Ev :=
  let rq := Ev.read (.download imageUrl)
  match env.download imageUrl with
  | .error _ => (none, [rq])
  | .ok resp =>
    let mimeType :=
      match resp.contentType with
      | some ct => ct
      | none =>
        match env.mimeLookup imageUrl with
        | some m => m
        | none => "image/jpeg"
    let b := basename (urlPathname imageUrl)
    let fileName := if b = "" then "image.jpg" else b
    (some ⟨resp.dataTok, mimeType, fileName⟩, [rq])

/-- The local-path branch shared by both `uploadMedia` versions
(bulk-upload.js 352-364, bulk-update.js 1152-1163): existence check, read,
`mime.lookup || 'application/octet-stream'`, `path.basename`. -/
def acquireLocal (env : WpEnv) (p : String) : Option MediaAsset × List Ev :=
  match env.localFile p with
  | none => (none, [])
  | some lf =>
    (some ⟨lf.dataTok,
      (match env.mimeLookup p with
       | some m => m
       | none => "application/octet-stream"),
      basename p⟩, [])

/-- The acquisition step of create-mode `uploadMedia` (bulk-upload.js
341-364): for URLs, rewrite Google-Drive links *before* fetching; otherwise
read the (trimmed) local path. -/
def acquireCreate (env : WpEnv) (processed : String) : Option MediaAsset × List Ev :=
  if isHttp processed then downloadImageCreate env (convertGoogleDriveUrl processed)
  else acquireLocal env processed

/-- The shared sleep-then-`POST /media` step (bulk-upload.js 366-379,
bulk-update.js 1165-1177). -/
def uploadStep (env : WpEnv) (acquired : Option MediaAsset × List Ev) :
    Option Nat × List Ev :=
  match acquired with
  | (none, tr) => (none, tr)
  | (some asset, tr) =>
    match env.mediaUpload asset with
    | .ok i =>
      (some i, tr ++ [Ev.delay, Ev.write (.media asset.fileName asset.mimeType)])
    | .error _ =>
      (none, tr ++ [Ev.delay, Ev.write (.media asset.fileName asset.mimeType)])

/-- `uploadMedia` (bulk-upload.js 333-387, create mode): trim the source,
rewrite Google-Drive URLs before fetching, or read the local file; then
sleep and `POST /media`. -/
def uploadMediaCreate (env : WpEnv) (filePathOrUrl : String) :
    Option Nat × List Ev :=
  if jsTrim filePathOrUrl = "" then (none, [])
  else uploadStep env (acquireCreate env (jsTrim filePathOrUrl))

/-- The acquisition step of update-mode `uploadMedia` (bulk-update.js
1145-1163): no Drive-URL rewrite, the plain download path, and the local
branch resolves the *untrimmed* argument
(`path.resolve(__dirname, filePathOrUrl)`). -/
def acquireUpdate (env : WpEnv) (filePathOrUrl : String) :
    Option MediaAsset × List Ev :=
  if isHttp (jsTrim filePathOrUrl) then downloadImageUpdate env (jsTrim filePathOrUrl)
  else acquireLocal env filePathOrUrl

/-- `uploadMedia` (bulk-update.js 1138-1185, update mode). -/
def uploadMediaUpdate (env : WpEnv) (filePathOrUrl : String) :
    Option Nat × List Ev :=
  if jsTrim filePathOrUrl = "" then (none, [])
  else uploadStep env (acquireUpdate env filePathOrUrl)

/-- The payload assembly of `createOrUpdatePost` (bulk-upload.js 543-624):
required fields, optional fields, ACF JSON (a parse failure only skips the
field), terms, featured image and the three-way SEO field fan-out.  This
part never throws. -/
def buildPostDataPayload (env : WpEnv) (defaultStatus : String) (row : Row)
    (catIds tagIds : List Nat) (mediaId : Option Nat) : PostData :=
  let pd : PostData :=
    { title := some (val row.title)
      content := some (val row.content)
      status := some (if pres row.status then val row.status else defaultStatus) }
  let pd := if pres row.slug then { pd with slug := some (val row.slug) } else pd
  let pd := if pres row.excerpt then { pd with excerpt := some (val row.excerpt) } else pd
  let pd :=
    if pres row.acf_json then
      match env.jsonParse (row.acf_json.getD "") with
      | some a => { pd with acf := some a }
      | none => pd
    else pd
  let pd := if catIds.length > 0 then { pd with categories := some catIds } else pd
  let pd := if tagIds.length > 0 then { pd with tags := some tagIds } else pd
  let pd :=
    match mediaId with
    | some mid => { pd with featured_media := some mid }
    | none => pd
  let pd :=
    if pres row.meta_title then
      { pd with
        meta_title := some (val row.meta_title)
        yoast_title := some (val row.meta_title)
        rank_math_title := some (val row.meta_title) }
    else pd
  let pd :=
    if pres row.meta_description then
      { pd with
        meta_description := some (val row.meta_description)
        yoast_metadesc := some (val row.meta_description)
        rank_math_description := some (val row.meta_description) }
    else pd
  if pres row.focus_keyword then
    { pd with
      yoast_focuskw := some (val row.focus_keyword)
      rank_math_focus_keyword := some (val row.focus_keyword) }
  else pd

/-- The three sub-resolution steps of the create-mode payload build, in
source order: categories, tags, featured image (bulk-upload.js 567-590). -/
def rowCats (env : WpEnv) (row : Row) : List Nat × List Ev :=
  if pres row.categories then resolveTerms env (row.categories.getD "") "categories"
  else ([], [])

def rowTags (env : WpEnv) (row : Row) : List Nat × List Ev :=
  if pres row.tags then resolveTerms env (row.tags.getD "") "tags" else ([], [])

/-- `row.featured_image_path?.trim() || row.featured_image_url?.trim()`. -/
def rowImagePath (row : Row) : String :=
  if pres row.featured_image_path then val row.featured_image_path
  else if pres row.featured_image_url then val row.featured_image_url else ""

def rowMediaCreate (env : WpEnv) (row : Row) : Option Nat × List Ev :=
  if rowImagePath row ≠ "" then uploadMediaCreate env (rowImagePath row) else (none, [])

def buildPostData (env : WpEnv) (defaultStatus : String) (row : Row) :
    PostData × List Ev :=
  (buildPostDataPayload env defaultStatus row (rowCats env row).1 (rowTags env row).1
      (rowMediaCreate env row).1,
    (rowCats env row).2 ++ (rowTags env row).2 ++ (rowMediaCreate env row).2)

/-- The duplicate-gate error message (bulk-upload.js 631). -/
def dupMsg (t : String) (i : Nat) : String :=
  "Post with title \"" ++ t ++ "\" already exists (ID: " ++ toString i ++
    "). Duplicate posts are not allowed."

/-- The `try` body of `createOrUpdatePost` (bulk-upload.js 533-664):
validation, payload build, title duplicate gate, slug lookup, sleep, then
create or update. -/
def createTry (env : WpEnv) (defaultStatus : String) (row : Row) :
    Except ApiError (String × Nat × String) × List Ev :=
  if ¬ pres row.title then (.error ⟨"Missing required field: title", none⟩, [])
  else if ¬ pres row.content then (.error ⟨"Missing required field: content", none⟩, [])
  else
    match buildPostData env defaultStatus row, findPostByTitle env (val row.title) with
    | (pd, tr1), (some epid, tr2) =>
      (.error ⟨dupMsg (val row.title) epid, none⟩, tr1 ++ tr2)
    | (pd, tr1), (none, tr2) =>
      match (match pd.slug with
             | some sl => findPostBySlug env sl
             | none => (none, [])) with
      | (some pid, tr3) =>
        match env.updateCall pid pd with
        | .ok r =>
          (.ok ("updated", r.id, r.status),
            tr1 ++ tr2 ++ tr3 ++ [Ev.delay, Ev.write (.postUpdate pid pd)])
        | .error e =>
          (.error e, tr1 ++ tr2 ++ tr3 ++ [Ev.delay, Ev.write (.postUpdate pid pd)])
      | (none, tr3) =>
        match env.createPost pd with
        | .ok r =>
          (.ok ("created", r.id, r.status),
            tr1 ++ tr2 ++ tr3 ++ [Ev.delay, Ev.write (.postCreate pd)])
        | .error e =>
          (.error e, tr1 ++ tr2 ++ tr3 ++ [Ev.delay, Ev.write (.postCreate pd)])

/-- `row.title || 'Untitled'` (bulk-upload.js 526, bulk-update.js 1314). -/
def outTitle (row : Row) : String :=
  match row.title with
  | none => "Untitled"
  | some t => if t = "" then "Untitled" else t

/-- `createOrUpdatePost` (bulk-upload.js 520-676): run the body and catch any
exception at the row boundary, recording it in the Outcome. -/
def createOrUpdatePost (env : WpEnv) (defaultStatus : String) (row : Row)
    (rowNumber : Nat) : Outcome × List Ev :=
  match createTry env defaultStatus row with
  | (.ok (act, pid, st), tr) =>
    ({ rowNumber, title := outTitle row, action := some act, postId := some pid,
       status := some st, error := none }, tr)
  | (.error e, tr) =>
    ({ rowNumber, title := outTitle row, action := none, postId := none,
       status := none, error := some (errString e) }, tr)

/-- The sparse payload assembly of `updatePost` (bulk-update.js 1350-1411):
only the columns present and non-blank contribute a key. -/
def buildUpdateDataPayload (env : WpEnv) (row : Row)
    (catIds tagIds : List Nat) (mediaId : Option Nat) : PostData :=
  let pd : PostData := {}
  let pd := if pres row.title then { pd with title := some (val row.title) } else pd
  let pd := if pres row.content then { pd with content := some (val row.content) } else pd
  let pd := if pres row.status then { pd with status := some (val row.status) } else pd
  let pd := if pres row.slug then { pd with slug := some (val row.slug) } else pd
  let pd := if pres row.excerpt then { pd with excerpt := some (val row.excerpt) } else pd
  let pd :=
    if pres row.acf_json then
      match env.jsonParse (row.acf_json.getD "") with
      | some a => { pd with acf := some a }
      | none => pd
    else pd
  let pd := if catIds.length > 0 then { pd with categories := some catIds } else pd
  let pd := if tagIds.length > 0 then { pd with tags := some tagIds } else pd
  match mediaId with
  | some mid => { pd with featured_media := some mid }
  | none => pd

def rowMediaUpdate (env : WpEnv) (row : Row) : Option Nat × List Ev :=
  if rowImagePath row ≠ "" then uploadMediaUpdate env (rowImagePath row) else (none, [])

def buildUpdateData (env : WpEnv) (row : Row) : PostData × List Ev :=
  (buildUpdateDataPayload env row (rowCats env row).1 (rowTags env row).1
      (rowMediaUpdate env row).1,
    (rowCats env row).2 ++ (rowTags env row).2 ++ (rowMediaUpdate env row).2)

/-- The identifier resolution of `updatePost` (bulk-update.js 1322-1342):
priority `post_id > slug > title`, each failing the row when its lookup
misses (no fallback to the next identifier kind). -/
def resolveIdent (env : WpEnv) (row : Row) : Except ApiError Nat × List Ev :=
  if pres row.post_id then
    match findPostById env (val row.post_id) with
    | (some pid, tr) => (.ok pid, tr)
    | (none, tr) =>
      (.error ⟨"Post with ID \"" ++ row.post_id.getD "" ++ "\" not found", none⟩, tr)
  else if pres row.slug then
    match findPostBySlug env (val row.slug) with
    | (some pid, tr) => (.ok pid, tr)
    | (none, tr) =>
      (.error ⟨"Post with slug \"" ++ row.slug.getD "" ++ "\" not found", none⟩, tr)
  else if pres row.title then
    match findPostByTitle env (val row.title) with
    | (some pid, tr) => (.ok pid, tr)
    | (none, tr) =>
      (.error ⟨"Post with title \"" ++ row.title.getD "" ++ "\" not found", none⟩, tr)
  else (.error ⟨"Missing identifier: must provide post_id, slug, or title", none⟩, [])

/-- The `try` body of `updatePost` (bulk-update.js 1321-1435).  The middle
component is the value of `result.postId` at the end of the body: the early
assignment `result.postId = postId` (line 1344) survives into the Outcome
when a later step throws. -/
def updateTry (env : WpEnv) (row : Row) :
    Except ApiError (Nat × String) × Option Nat × List Ev :=
  match resolveIdent env row with
  | (.error e, tr) => (.error e, none, tr)
  | (.ok postId, tr) =>
    match env.getPost postId with
    | .error e => (.error e, some postId, tr ++ [Ev.read (.getPost postId)])
    | .ok _ =>
      match buildUpdateData env row with
      | (ud, tr2) =>
        if ud.isEmpty then
          (.error ⟨"No fields to update. Provide at least one field to update.", none⟩,
            some postId, tr ++ [Ev.read (.getPost postId)] ++ tr2)
        else
          match env.updateCall postId ud with
          | .ok r =>
            (.ok (r.id, r.status), some postId,
              tr ++ [Ev.read (.getPost postId)] ++ tr2 ++
                [Ev.delay, Ev.write (.postUpdate postId ud)])
          | .error e =>
            (.error e, some postId,
              tr ++ [Ev.read (.getPost postId)] ++ tr2 ++
                [Ev.delay, Ev.write (.postUpdate postId ud)])

/-- `updatePost` (bulk-update.js 1308-1455) with the row-boundary catch. -/
def updatePostRow (env : WpEnv) (row : Row) (rowNumber : Nat) :
    Outcome × List Ev :=
  match updateTry env row with
  | (.ok (pid, st), _, tr) =>
    ({ rowNumber, title := outTitle row, action := some "updated",
       postId := some pid, status := some st, error := none }, tr)
  | (.error e, pidNow, tr) =>
    ({ rowNumber, title := outTitle row, action := none, postId := pidNow,
       status := none, error := some (errString e) }, tr)

/-! ## Trace predicates -/

/-- Whether the last event of a trace is a pacing delay (`p` for the empty
trace). -/
def endD (p : Bool) : List Ev → Bool
  | [] => p
  | Ev.delay :: rest => endD true rest
  | Ev.read _ :: rest => endD false rest
  | Ev.write _ :: rest => endD false rest

/-- Every write event of the trace is immediately preceded by a delay event
(`p` tells whether the event just before the trace was a delay). -/
def wdFrom (p : Bool) : List Ev → Bool
  | [] => true
  | Ev.delay :: rest => wdFrom true rest
  | Ev.read _ :: rest => wdFrom false rest
  | Ev.write _ :: rest => p && wdFrom false rest

/-- Traces whose writes are all immediately preceded by a delay, regardless
of what came before the trace. -/
def WdAll (tr : List Ev) : Prop := ∀ p, wdFrom p tr = true

/-- A trace of read-only lookups. -/
def readsOnly (tr : List Ev) : Bool :=
  tr.all fun ev => match ev with | .read _ => true | _ => false

/-! ## Concrete test environment shared by witnesses and counterexamples -/

/-- A small concrete remote: post id `"5"` exists, slug `my-slug` resolves to
post 7, category `News` exists with id 3, media uploads succeed with id 99,
creates succeed with id 100. -/
def envT : WpEnv where
  postsPage := fun _ => .ok []
  postsBySlug := fun s => if s = "my-slug" then .ok [⟨7, "Old", "publish"⟩] else .ok []
  postById := fun i =>
    if i = "5" then .ok 5 else .error ⟨"Request failed with status code 404", none⟩
  getPost := fun i => if i = 5 ∨ i = 7 then .ok () else .error ⟨"boom", none⟩
  termSearch := fun _ n => if n = "News" then .ok [⟨3, "News"⟩] else .ok []
  termCreate := fun _ n => .ok ⟨42, n⟩
  download := fun _ => .error ⟨"boom", none⟩
  localFile := fun _ => none
  mediaUpload := fun _ => .ok 99
  createPost := fun _ => .ok ⟨100, "draft"⟩
  updateCall := fun _ _ => .ok ⟨7, "publish"⟩
  jsonParse := fun _ => none
  mimeExt := fun _ => none
  mimeLookup := fun _ => none

/-- An update-mode row whose only populated column is `post_id`. -/
def rowIdOnly : Row := { post_id := some "5" }

/-- An update-mode row whose only populated column is `slug`. -/
def rowSlugOnly : Row := { slug := some "my-slug" }

/-- A full listing page: 100 posts, none matching the searched titles. -/
def capPage : List RemotePost := List.replicate 100 ⟨1, "aaa", "draft"⟩

/-- Environment whose listing always returns a full page: the title search
must stop at the 10-page cap. -/
def envCap : WpEnv := { envT with postsPage := fun _ => .ok capPage }

/-- A Google-Drive share link with the file id in a `/d/<ID>` segment. -/
def driveUrl : String := "https://drive.google.com/file/d/ABC123/view"

/-- Environment whose downloads all answer with an HTML document (the typical
access-denied redirect page). -/
def envHtml : WpEnv := { envT with
  download := fun _ => .ok ⟨5, some "text/html; charset=utf-8", none⟩ }

theorem tagFree_nil : TagFree [] := trivial

theorem tagFree_cons {c : Char} {cs : List Char} :
    TagFree (c :: cs) ↔ (c = '<' → '>' ∉ cs) ∧ TagFree cs := Iff.rfl

theorem ampOk_nil : AmpOk [] := trivial

theorem ampOk_cons {c : Char} {cs : List Char} :
    AmpOk (c :: cs) ↔ (c = '&' → cs.head? = some ';' ∨ ';' ∉ cs) ∧ AmpOk cs := Iff.rfl

theorem tagFree_of_not_mem_gt {s : List Char} (h : '>' ∉ s) : TagFree s := by
  induction s with
  | nil => trivial
  | cons c cs ih =>
    refine ⟨fun _ => fun hm => h (List.mem_cons_of_mem _ hm), ih fun hm => h ?_⟩
    exact List.mem_cons_of_mem _ hm

theorem tagFree_of_not_mem_lt {s : List Char} (h : '<' ∉ s) : TagFree s := by
  induction s with
  | nil => trivial
  | cons c cs ih =>
    refine ⟨fun hc => absurd (hc ▸ List.mem_cons_self c cs) h, ih fun hm => h ?_⟩
    exact List.mem_cons_of_mem _ hm

theorem ampOk_of_not_mem_semi {s : List Char} (h : ';' ∉ s) : AmpOk s := by
  induction s with
  | nil => trivial
  | cons c cs ih =>
    refine ⟨fun _ => Or.inr fun hm => h (List.mem_cons_of_mem _ hm), ih fun hm => h ?_⟩
    exact List.mem_cons_of_mem _ hm

theorem tagFree_append_left {a b : List Char} (h : TagFree (a ++ b)) : TagFree a := by
  induction a with
  | nil => trivial
  | cons c cs ih =>
    rcases h with ⟨h1, h2⟩
    exact ⟨fun hc => fun hm => h1 hc (by simpa using Or.inl hm), ih h2⟩

theorem tagFree_append_right {a b : List Char} (h : TagFree (a ++ b)) : TagFree b := by
  induction a with
  | nil => exact h
  | cons c cs ih => exact ih h.2

theorem ampOk_append_left {a b : List Char} (h : AmpOk (a ++ b)) : AmpOk a := by
  induction a with
  | nil => trivial
  | cons c cs ih =>
    rcases h with ⟨h1, h2⟩
    refine ⟨fun hc => ?_, ih h2⟩
    rcases h1 hc with h1 | h1
    · cases cs with
      | nil => exact Or.inr (by simp)
      | cons d ds => exact Or.inl (by simpa using h1)
    · exact Or.inr fun hm => h1 (by simpa using Or.inl hm)

theorem ampOk_append_right {a b : List Char} (h : AmpOk (a ++ b)) : AmpOk b := by
  induction a with
  | nil => exact h
  | cons c cs ih => exact ih h.2

theorem tagFree_append {a b : List Char} (ha : '<' ∉ a) (hb : TagFree b) :
    TagFree (a ++ b) := by
  induction a with
  | nil => exact hb
  | cons c cs ih =>
    refine ⟨fun hc => absurd (hc ▸ List.mem_cons_self c cs) ha, ih fun hm => ha ?_⟩
    exact List.mem_cons_of_mem _ hm

theorem tagFree_infix {a b : List Char} (h : TagFree b) (hi : a <:+: b) : TagFree a := by
  rcases hi with ⟨u, v, rfl⟩
  rw [List.append_assoc] at h
  exact tagFree_append_left (tagFree_append_right h)

theorem ampOk_infix {a b : List Char} (h : AmpOk b) (hi : a <:+: b) : AmpOk a := by
  rcases hi with ⟨u, v, rfl⟩
  rw [List.append_assoc] at h
  exact ampOk_append_left (ampOk_append_right h)

theorem wsNorm_infix {a b : List Char} (h : WsNorm b) (hi : a <:+: b) : WsNorm a :=
  ⟨fun c hc => h.1 c (hi.subset hc), List.Chain'.infix h.2 hi⟩

theorem lowerFixed_infix {a b : List Char} (h : LowerFixed b) (hi : a <:+: b) :
    LowerFixed a := fun c hc => h c (hi.subset hc)

/-- First-occurrence split of a list at a member. -/
theorem exists_first_split {a : Char} {l : List Char} (h : a ∈ l) :
    ∃ m rest, l = m ++ a :: rest ∧ a ∉ m := by
  induction l with
  | nil => cases h
  | cons b bs ih =>
    by_cases hb : b = a
    · exact ⟨[], bs, by rw [hb, List.nil_append], by simp⟩
    · rcases List.mem_cons.mp h with h | h
      · exact absurd h.symm hb
      · rcases ih h with ⟨m, rest, rfl, hnm⟩
        exact ⟨b :: m, rest, rfl, by
          intro hm
          rcases List.mem_cons.mp hm with hm | hm
          · exact hb hm.symm
          · exact hnm hm⟩

/-! ### `stripTags`: establishment and fixpoint -/

theorem stripTagsAux_no_gt {s : List Char} (h : '>' ∉ s) (buf : List Char) :
    stripTagsAux s (some buf) = buf.reverse ++ s := by
  induction s generalizing buf with
  | nil => simp [stripTagsAux]
  | cons c cs ih =>
    have hc : c ≠ '>' := fun hc => h (hc ▸ List.mem_cons_self c cs)
    have hcs : '>' ∉ cs := fun hm => h (List.mem_cons_of_mem _ hm)
    simp only [stripTagsAux, if_neg hc, ih hcs]
    simp

theorem stripTagsAux_to_gt {m rest : List Char} (h : '>' ∉ m) (buf : List Char) :
    stripTagsAux (m ++ '>' :: rest) (some buf) = stripTagsAux rest none := by
  induction m generalizing buf with
  | nil => simp [stripTagsAux]
  | cons c cs ih =>
    have hc : c ≠ '>' := fun hc => h (hc ▸ List.mem_cons_self c cs)
    have hcs : '>' ∉ cs := fun hm => h (List.mem_cons_of_mem _ hm)
    simpa [stripTagsAux, if_neg hc] using ih hcs (c :: buf)

theorem stripTags_of_tagFree {s : List Char} (h : TagFree s) : stripTags s = s := by
  unfold stripTags
  induction s with
  | nil => rfl
  | cons c cs ih =>
    rcases h with ⟨h1, h2⟩
    by_cases hc : c = '<'
    · subst hc
      simp only [stripTagsAux, if_pos rfl]
      rw [stripTagsAux_no_gt (h1 rfl)]
      rfl
    · simp only [stripTagsAux, if_neg hc, ih h2]

theorem tagFree_stripTagsAux_none :
    ∀ n s, List.length s ≤ n → TagFree (stripTagsAux s none) := by
  intro n
  induction n with
  | zero =>
    intro s hs
    rw [List.length_eq_zero.mp (Nat.le_zero.mp hs)]
    trivial
  | succ n ih =>
    intro s hs
    match s with
    | [] => trivial
    | c :: cs =>
      simp only [List.length_cons, Nat.succ_le_succ_iff] at hs
      by_cases hc : c = '<'
      · subst hc
        simp only [stripTagsAux, if_pos rfl]
        by_cases hgt : '>' ∈ cs
        · rcases exists_first_split hgt with ⟨m, rest, rfl, hnm⟩
          rw [stripTagsAux_to_gt hnm]
          refine ih rest (le_trans ?_ hs)
          simp [Nat.le_add_left, Nat.le_succ_of_le]
          omega
        · rw [stripTagsAux_no_gt hgt]
          exact ⟨fun _ => hgt, tagFree_of_not_mem_gt hgt⟩
      · simp only [stripTagsAux, if_neg hc]
        exact ⟨fun h => absurd h hc, ih cs hs⟩

theorem tagFree_stripTags (s : List Char) : TagFree (stripTags s) :=
  tagFree_stripTagsAux_none s.length s (le_refl _)

/-! ### `replaceStr`: membership, invariant preservation, fixpoint -/

theorem mem_replAux {pat repl : List Char} {x : Char} :
    ∀ {s : List Char} {k : Nat}, x ∈ replAux pat repl k s →
      x ∈ s ∨ x ∈ pat ∨ x ∈ repl := by
  intro s
  induction s with
  | nil =>
    intro k h
    simp only [replAux] at h
    exact Or.inr (Or.inl (List.mem_of_mem_take h))
  | cons c cs ih =>
    intro k h
    simp only [replAux] at h
    split at h
    · split at h
      · rcases List.mem_append.mp h with h | h
        · exact Or.inr (Or.inr h)
        · rcases ih h with h | h
          · exact Or.inl (List.mem_cons_of_mem _ h)
          · exact Or.inr h
      · rcases ih h with h | h
        · exact Or.inl (List.mem_cons_of_mem _ h)
        · exact Or.inr h
    · rcases List.mem_append.mp h with h | h
      · exact Or.inr (Or.inl (List.mem_of_mem_take h))
      · split at h
        · rcases ih h with h | h
          · exact Or.inl (List.mem_cons_of_mem _ h)
          · exact Or.inr h
        · rcases List.mem_cons.mp h with h | h
          · exact Or.inl (h ▸ List.mem_cons_self c cs)
          · rcases ih h with h | h
            · exact Or.inl (List.mem_cons_of_mem _ h)
            · exact Or.inr h

theorem tagFree_replAux {pat repl : List Char}
    (hp1 : '<' ∉ pat) (hp2 : '>' ∉ pat) (hr1 : '<' ∉ repl) (hr2 : '>' ∉ repl) :
    ∀ {s : List Char} {k : Nat}, TagFree s → TagFree (replAux pat repl k s) := by
  intro s
  induction s with
  | nil =>
    intro k _
    exact tagFree_of_not_mem_lt fun hm => hp1 (List.mem_of_mem_take hm)
  | cons c cs ih =>
    intro k h
    rcases h with ⟨h1, h2⟩
    simp only [replAux]
    split
    · split
      · exact tagFree_append hr1 (ih h2)
      · exact ih h2
    · refine tagFree_append (fun hm => hp1 (List.mem_of_mem_take hm)) ?_
      split
      · exact ih h2
      · refine ⟨fun hc => fun hm => ?_, ih h2⟩
        rcases mem_replAux hm with hm | hm | hm
        · exact h1 hc hm
        · exact hp2 hm
        · exact hr2 hm

theorem take_succ_of_getElem {pat : List Char} {k : Nat} {c : Char}
    (h : pat[k]? = some c) : pat.take (k + 1) = pat.take k ++ [c] := by
  rw [List.take_succ, h]
  rfl

theorem replAux_of_not_infix {pat repl : List Char} :
    ∀ {s : List Char} {k : Nat}, ¬ pat <:+: (pat.take k ++ s) →
      replAux pat repl k s = pat.take k ++ s := by
  intro s
  induction s with
  | nil =>
    intro k _
    simp [replAux]
  | cons c cs ih =>
    intro k hno
    simp only [replAux]
    split
    · rename_i hk
      split
      · rename_i hlen
        exfalso
        apply hno
        have hpat : pat = pat.take k ++ [c] := by
          conv_lhs => rw [← List.take_length (l := pat), ← hlen, take_succ_of_getElem hk]
        refine ⟨[], cs, ?_⟩
        conv_lhs => rw [List.nil_append, hpat]
        rw [List.append_assoc, List.singleton_append]
      · have heq : pat.take (k + 1) = pat.take k ++ [c] := take_succ_of_getElem hk
        have hmain := ih (k := k + 1) (by rw [heq, List.append_assoc]; simpa using hno)
        rw [hmain, heq, List.append_assoc]
        rfl
    · split
      · rename_i h0
        have h1 : pat.take 1 = [c] := by
          rw [take_succ_of_getElem h0]
          rfl
        have hmain := ih (k := 1) (by
          rw [h1]
          intro hi
          exact hno (hi.trans ((List.suffix_append (pat.take k) (c :: cs)).isInfix)))
        rw [hmain, h1]
        rfl
      · have hmain := ih (k := 0) (by
          simp only [List.take_zero, List.nil_append]
          intro hi
          exact hno
            ((hi.trans (List.suffix_cons c cs).isInfix).trans
              ((List.suffix_append (pat.take k) (c :: cs)).isInfix)))
        rw [hmain]
        rfl

/-- `str.replace(/pat/g, repl)` leaves a string without an occurrence of the
pattern unchanged. -/
theorem replaceStr_of_not_infix {pat repl s : List Char} (h : ¬ pat <:+: s) :
    replaceStr pat repl s = s :=
  replAux_of_not_infix (by simpa using h)

/-! ### `stripEntities`: membership, fixpoint, establishment, preservation -/

theorem stripEntAux_no_semi {s : List Char} (h : ';' ∉ s) (acc : List Char) :
    stripEntAux s (some acc) = '&' :: acc.reverse ++ s := by
  induction s generalizing acc with
  | nil => simp [stripEntAux]
  | cons c cs ih =>
    have hc : c ≠ ';' := fun hc => h (hc ▸ List.mem_cons_self c cs)
    have hcs : ';' ∉ cs := fun hm => h (List.mem_cons_of_mem _ hm)
    simp only [stripEntAux, if_neg hc, ih hcs]
    simp

theorem stripEntAux_to_semi {m rest : List Char} (h : ';' ∉ m) (acc : List Char) :
    stripEntAux (m ++ ';' :: rest) (some acc) =
      if m = [] ∧ acc = [] then '&' :: ';' :: stripEntAux rest none
      else stripEntAux rest none := by
  induction m generalizing acc with
  | nil =>
    simp only [List.nil_append, stripEntAux, if_pos rfl]
    by_cases ha : acc = [] <;> simp [ha]
  | cons c cs ih =>
    have hc : c ≠ ';' := fun hc => h (hc ▸ List.mem_cons_self c cs)
    have hcs : ';' ∉ cs := fun hm => h (List.mem_cons_of_mem _ hm)
    rw [List.cons_append,
      show stripEntAux (c :: (cs ++ ';' :: rest)) (some acc) =
        stripEntAux (cs ++ ';' :: rest) (some (c :: acc)) from by
          simp [stripEntAux, hc],
      ih hcs (c :: acc)]
    simp

theorem stripEntities_of_ampOk :
    ∀ n {s : List Char}, s.length ≤ n → AmpOk s → stripEntities s = s := by
  intro n
  induction n with
  | zero =>
    intro s hs _
    rw [List.length_eq_zero.mp (Nat.le_zero.mp hs)]
    rfl
  | succ n ih =>
    intro s hs h
    match s with
    | [] => rfl
    | c :: cs =>
      simp only [List.length_cons, Nat.succ_le_succ_iff] at hs
      rcases h with ⟨h1, h2⟩
      by_cases hc : c = '&'
      · subst hc
        rcases h1 rfl with hh | hh
        · cases cs with
          | nil => simp at hh
          | cons d ds =>
            have hd : d = ';' := by simpa using hh
            subst hd
            show stripEntAux (';' :: ds) (some []) = '&' :: ';' :: ds
            rw [show stripEntAux (';' :: ds) (some []) =
                '&' :: ';' :: stripEntAux ds none from by simp [stripEntAux]]
            have hds : stripEntities ds = ds := by
              refine ih ?_ h2.2
              simp only [List.length_cons] at hs
              omega
            simpa [stripEntities] using hds
        · show stripEntAux cs (some []) = '&' :: cs
          rw [stripEntAux_no_semi hh]
          rfl
      · show (if c = '&' then stripEntAux cs (some []) else c :: stripEntAux cs none) = c :: cs
        rw [if_neg hc]
        have : stripEntities cs = cs := ih hs h2
        simpa [stripEntities] using this

theorem mem_stripEntAux {x : Char} :
    ∀ {s : List Char} {b : Option (List Char)}, x ∈ stripEntAux s b →
      x ∈ s ∨ x = '&' ∨ (∃ acc, b = some acc ∧ x ∈ acc) := by
  intro s
  induction s with
  | nil =>
    intro b h
    match b with
    | none => cases h
    | some acc =>
      simp only [stripEntAux] at h
      rcases List.mem_cons.mp h with h | h
      · exact Or.inr (Or.inl h)
      · exact Or.inr (Or.inr ⟨acc, rfl, by simpa using h⟩)
  | cons c cs ih =>
    intro b h
    match b with
    | none =>
      simp only [stripEntAux] at h
      split at h
      · rcases ih h with h | h | ⟨acc, hacc, hm⟩
        · exact Or.inl (List.mem_cons_of_mem _ h)
        · exact Or.inr (Or.inl h)
        · cases hacc
          cases hm
      · rcases List.mem_cons.mp h with h | h
        · exact Or.inl (h ▸ List.mem_cons_self c cs)
        · rcases ih h with h | h | ⟨acc, hacc, hm⟩
          · exact Or.inl (List.mem_cons_of_mem _ h)
          · exact Or.inr (Or.inl h)
          · cases hacc
    | some acc =>
      simp only [stripEntAux] at h
      split at h
      · rename_i hc
        split at h
        · rcases List.mem_cons.mp h with h | h
          · exact Or.inr (Or.inl h)
          · rcases List.mem_cons.mp h with h | h
            · exact Or.inl (by rw [h, hc]; exact List.mem_cons_self _ _)
            · rcases ih h with h | h | ⟨acc', hacc, hm⟩
              · exact Or.inl (List.mem_cons_of_mem _ h)
              · exact Or.inr (Or.inl h)
              · cases hacc
        · rcases ih h with h | h | ⟨acc', hacc, hm⟩
          · exact Or.inl (List.mem_cons_of_mem _ h)
          · exact Or.inr (Or.inl h)
          · cases hacc
      · rcases ih h with h | h | ⟨acc', hacc, hm⟩
        · exact Or.inl (List.mem_cons_of_mem _ h)
        · exact Or.inr (Or.inl h)
        · cases hacc
          rcases List.mem_cons.mp hm with hm | hm
          · exact Or.inl (hm ▸ List.mem_cons_self c cs)
          · exact Or.inr (Or.inr ⟨acc, rfl, hm⟩)

theorem ampOk_stripEntities :
    ∀ n {s : List Char}, s.length ≤ n → AmpOk (stripEntities s) := by
  intro n
  induction n with
  | zero =>
    intro s hs
    rw [List.length_eq_zero.mp (Nat.le_zero.mp hs)]
    trivial
  | succ n ih =>
    intro s hs
    match s with
    | [] => trivial
    | c :: cs =>
      simp only [List.length_cons, Nat.succ_le_succ_iff] at hs
      by_cases hc : c = '&'
      · subst hc
        show AmpOk (stripEntAux cs (some []))
        by_cases hsemi : ';' ∈ cs
        · rcases exists_first_split hsemi with ⟨m, rest, rfl, hnm⟩
          rw [stripEntAux_to_semi hnm]
          have hrest : rest.length ≤ n := by
            have : rest.length < (m ++ ';' :: rest).length := by
              simp
              omega
            omega
          by_cases hm : m = []
          · subst hm
            simp only [if_pos (show ([] : List Char) = [] ∧ ([] : List Char) = [] from ⟨rfl, rfl⟩)]
            exact ampOk_cons.mpr ⟨fun _ => Or.inl rfl,
              ampOk_cons.mpr ⟨fun h => absurd h (by decide), ih hrest⟩⟩
          · rw [if_neg (by simp [hm])]
            exact ih hrest
        · rw [stripEntAux_no_semi hsemi]
          exact ampOk_cons.mpr
            ⟨fun _ => Or.inr (by simpa using hsemi), ampOk_of_not_mem_semi hsemi⟩
      · show AmpOk (if c = '&' then stripEntAux cs (some []) else c :: stripEntAux cs none)
        rw [if_neg hc]
        exact ampOk_cons.mpr ⟨fun h => absurd h hc, ih hs⟩

theorem tagFree_stripEntities :
    ∀ n {s : List Char}, s.length ≤ n → TagFree s → TagFree (stripEntities s) := by
  intro n
  induction n with
  | zero =>
    intro s hs _
    rw [List.length_eq_zero.mp (Nat.le_zero.mp hs)]
    trivial
  | succ n ih =>
    intro s hs h
    match s with
    | [] => trivial
    | c :: cs =>
      simp only [List.length_cons, Nat.succ_le_succ_iff] at hs
      rcases h with ⟨h1, h2⟩
      by_cases hc : c = '&'
      · subst hc
        show TagFree (stripEntAux cs (some []))
        by_cases hsemi : ';' ∈ cs
        · rcases exists_first_split hsemi with ⟨m, rest, rfl, hnm⟩
          rw [stripEntAux_to_semi hnm]
          have hrest : rest.length ≤ n := by
            have : rest.length < (m ++ ';' :: rest).length := by
              simp
              omega
            omega
          have htf : TagFree rest :=
            (tagFree_append_right (a := m) h2).2
          by_cases hm : m = []
          · subst hm
            simp only [if_pos (show ([] : List Char) = [] ∧ ([] : List Char) = [] from ⟨rfl, rfl⟩)]
            exact tagFree_cons.mpr ⟨fun h => absurd h (by decide),
              tagFree_cons.mpr ⟨fun h => absurd h (by decide), ih hrest htf⟩⟩
          · rw [if_neg (by simp [hm])]
            exact ih hrest htf
        · rw [stripEntAux_no_semi hsemi]
          exact tagFree_cons.mpr ⟨fun h => absurd h (by decide), h2⟩
      · show TagFree (if c = '&' then stripEntAux cs (some []) else c :: stripEntAux cs none)
        rw [if_neg hc]
        refine tagFree_cons.mpr ⟨fun hlt => fun hm => ?_, ih hs h2⟩
        rcases mem_stripEntAux hm with hm | hm | ⟨acc, hacc, _⟩
        · exact h1 hlt hm
        · cases hm
        · cases hacc

/-! ### `collapseWs`: membership, invariant preservation, establishment, fixpoint -/

theorem mem_collapseWsAux {x : Char} :
    ∀ {s : List Char} {b : Bool}, x ∈ collapseWsAux s b → x ∈ s ∨ x = ' ' := by
  intro s
  induction s with
  | nil =>
    intro b h
    cases h
  | cons c cs ih =>
    intro b h
    simp only [collapseWsAux] at h
    split at h
    · split at h
      · rcases ih h with h | h
        · exact Or.inl (List.mem_cons_of_mem _ h)
        · exact Or.inr h
      · rcases List.mem_cons.mp h with h | h
        · exact Or.inr h
        · rcases ih h with h | h
          · exact Or.inl (List.mem_cons_of_mem _ h)
          · exact Or.inr h
    · rcases List.mem_cons.mp h with h | h
      · exact Or.inl (h ▸ List.mem_cons_self c cs)
      · rcases ih h with h | h
        · exact Or.inl (List.mem_cons_of_mem _ h)
        · exact Or.inr h

theorem tagFree_collapseWsAux :
    ∀ {s : List Char} {b : Bool}, TagFree s → TagFree (collapseWsAux s b) := by
  intro s
  induction s with
  | nil =>
    intro b _
    trivial
  | cons c cs ih =>
    intro b h
    rcases h with ⟨h1, h2⟩
    simp only [collapseWsAux]
    split
    · split
      · exact ih h2
      · exact tagFree_cons.mpr ⟨fun h => absurd h (by decide), ih h2⟩
    · refine tagFree_cons.mpr ⟨fun hlt => fun hm => ?_, ih h2⟩
      rcases mem_collapseWsAux hm with hm | hm
      · exact h1 hlt hm
      · cases hm

theorem ampOk_collapseWsAux :
    ∀ {s : List Char} {b : Bool}, AmpOk s → AmpOk (collapseWsAux s b) := by
  intro s
  induction s with
  | nil =>
    intro b _
    trivial
  | cons c cs ih =>
    intro b h
    rcases h with ⟨h1, h2⟩
    simp only [collapseWsAux]
    split
    · split
      · exact ih h2
      · exact ampOk_cons.mpr ⟨fun h => absurd h (by decide), ih h2⟩
    · rename_i hw
      refine ampOk_cons.mpr ⟨fun hc => ?_, ih h2⟩
      rcases h1 hc with hh | hh
      · cases cs with
        | nil => simp at hh
        | cons d ds =>
          have hd : d = ';' := by simpa using hh
          subst hd
          refine Or.inl ?_
          rw [show collapseWsAux (';' :: ds) false = ';' :: collapseWsAux ds false from by
            simp [collapseWsAux, jsWs]]
          rfl
      · refine Or.inr fun hm => ?_
        rcases mem_collapseWsAux hm with hm | hm
        · exact hh hm
        · cases hm

theorem head_collapseWsAux_true {s : List Char} :
    ∀ d ∈ (collapseWsAux s true).head?, jsWs d = false := by
  induction s with
  | nil =>
    intro d h
    cases h
  | cons c cs ih =>
    intro d h
    by_cases hw : jsWs c
    · rw [show collapseWsAux (c :: cs) true = collapseWsAux cs true from by
        simp [collapseWsAux, hw]] at h
      exact ih d h
    · rw [show collapseWsAux (c :: cs) true = c :: collapseWsAux cs false from by
        simp [collapseWsAux, hw]] at h
      simp only [List.head?_cons, Option.mem_def, Option.some.injEq] at h
      subst h
      simpa using hw

theorem wsNorm_collapseWsAux :
    ∀ {s : List Char} {b : Bool}, WsNorm (collapseWsAux s b) := by
  intro s
  induction s with
  | nil =>
    intro b
    exact ⟨fun c hc => absurd hc (by simp [collapseWsAux]), by simp [collapseWsAux]⟩
  | cons c cs ih =>
    intro b
    simp only [collapseWsAux]
    split
    · split
      · exact ih
      · refine ⟨?_, ?_⟩
        · intro x hx hwx
          rcases List.mem_cons.mp hx with hx | hx
          · exact hx
          · exact (ih (b := true)).1 x hx hwx
        · refine List.chain'_cons'.mpr ⟨?_, (ih (b := true)).2⟩
          intro y hy hcon
          rw [head_collapseWsAux_true y hy] at hcon
          exact Bool.noConfusion hcon.2
    · rename_i hw
      refine ⟨?_, ?_⟩
      · intro x hx hwx
        rcases List.mem_cons.mp hx with hx | hx
        · rw [hx] at hwx
          exact absurd hwx (by simpa using hw)
        · exact (ih (b := false)).1 x hx hwx
      · refine List.chain'_cons'.mpr ⟨?_, (ih (b := false)).2⟩
        intro y _ hcon
        rw [hcon.1] at hw
        exact hw rfl

theorem collapseWsAux_of_wsNorm :
    ∀ {s : List Char} {b : Bool}, WsNorm s →
      (b = true → ∀ d ∈ s.head?, jsWs d = false) → collapseWsAux s b = s := by
  intro s
  induction s with
  | nil =>
    intro b _ _
    rfl
  | cons c cs ih =>
    intro b h hb
    rcases h with ⟨h1, h2⟩
    match b with
    | true =>
      have hc : jsWs c = false := hb rfl c (by simp)
      rw [show collapseWsAux (c :: cs) true = c :: collapseWsAux cs false from by
        simp [collapseWsAux, hc]]
      rw [ih ⟨fun x hx => h1 x (List.mem_cons_of_mem _ hx), (List.chain'_cons'.mp h2).2⟩
        (fun h => absurd h (by simp))]
    | false =>
      by_cases hw : jsWs c = true
      · have hsp : c = ' ' := h1 c (by simp) hw
        rw [show collapseWsAux (c :: cs) false = ' ' :: collapseWsAux cs true from by
          simp [collapseWsAux, hw]]
        rw [ih ⟨fun x hx => h1 x (List.mem_cons_of_mem _ hx), (List.chain'_cons'.mp h2).2⟩
          (fun _ => fun d hd => ?_), hsp]
        have := (List.chain'_cons'.mp h2).1 d hd
        rw [hw] at this
        simpa using fun hcon => this ⟨rfl, hcon⟩
      · rw [show collapseWsAux (c :: cs) false = c :: collapseWsAux cs false from by
          simp [collapseWsAux, hw]]
        rw [ih ⟨fun x hx => h1 x (List.mem_cons_of_mem _ hx), (List.chain'_cons'.mp h2).2⟩
          (fun h => absurd h (by simp))]

theorem collapseWs_of_wsNorm {s : List Char} (h : WsNorm s) : collapseWs s = s :=
  collapseWsAux_of_wsNorm h (fun h => absurd h (by simp))

/-! ### `Char.toLower`: arithmetic characterization, idempotence, reflections -/

theorem char_toNat_inj {c d : Char} (h : c.toNat = d.toNat) : c = d := by
  have h2 := congrArg Char.ofNat h
  rwa [Char.ofNat_toNat, Char.ofNat_toNat] at h2

theorem char_eq_iff_toNat {c d : Char} : c = d ↔ c.toNat = d.toNat :=
  ⟨fun h => congrArg Char.toNat h, char_toNat_inj⟩

theorem toNat_ofNat_lt {n : Nat} (h : n < 55296) : (Char.ofNat n).toNat = n := by
  unfold Char.ofNat
  rw [dif_pos (Or.inl h)]
  rfl

theorem toLower_toNat (c : Char) :
    (Char.toLower c).toNat =
      if 65 ≤ c.toNat ∧ c.toNat ≤ 90 then c.toNat + 32 else c.toNat := by
  unfold Char.toLower
  by_cases h : c.toNat ≥ 65 ∧ c.toNat ≤ 90
  · rw [if_pos h, if_pos ⟨h.1, h.2⟩, toNat_ofNat_lt (by omega)]
  · rw [if_neg h, if_neg fun hc => h ⟨hc.1, hc.2⟩]

theorem toLower_fix {c : Char} (h : ¬(65 ≤ c.toNat ∧ c.toNat ≤ 90)) :
    c.toLower = c := by
  apply char_toNat_inj
  rw [toLower_toNat, if_neg h]

theorem toLower_idem (c : Char) : c.toLower.toLower = c.toLower := by
  by_cases h : 65 ≤ c.toNat ∧ c.toNat ≤ 90
  · have h2 : c.toLower.toNat = c.toNat + 32 := by rw [toLower_toNat, if_pos h]
    apply toLower_fix
    rw [h2]
    omega
  · simp [toLower_fix h]

theorem toLower_eq_iff {c d : Char} (h1 : ¬(97 ≤ d.toNat ∧ d.toNat ≤ 122))
    (h2 : ¬(65 ≤ d.toNat ∧ d.toNat ≤ 90)) : c.toLower = d ↔ c = d := by
  constructor
  · intro h
    have hn := congrArg Char.toNat h
    rw [toLower_toNat] at hn
    by_cases hu : 65 ≤ c.toNat ∧ c.toNat ≤ 90
    · rw [if_pos hu] at hn
      exact absurd ⟨by omega, by omega⟩ h1
    · rw [if_neg hu] at hn
      exact char_toNat_inj hn
  · intro h
    rw [h]
    exact toLower_fix h2

theorem toNat_of_jsWs {c : Char} (h : jsWs c = true) :
    c.toNat = 32 ∨ c.toNat = 9 ∨ c.toNat = 10 ∨ c.toNat = 13 ∨
      c.toNat = 11 ∨ c.toNat = 12 ∨ c.toNat = 160 := by
  simp only [jsWs, Bool.or_eq_true, decide_eq_true_eq] at h
  rcases h with ((((((h | h) | h) | h) | h) | h) | h) <;> subst h <;> decide

theorem jsWs_toLower (c : Char) : jsWs c.toLower = jsWs c := by
  by_cases h : 65 ≤ c.toNat ∧ c.toNat ≤ 90
  · have h2 : c.toLower.toNat = c.toNat + 32 := by rw [toLower_toNat, if_pos h]
    have f1 : jsWs c = false := by
      cases hf : jsWs c with
      | false => rfl
      | true => rcases toNat_of_jsWs hf with hn | hn | hn | hn | hn | hn | hn <;> omega
    have f2 : jsWs c.toLower = false := by
      cases hf : jsWs c.toLower with
      | false => rfl
      | true => rcases toNat_of_jsWs hf with hn | hn | hn | hn | hn | hn | hn <;> omega
    rw [f1, f2]
  · rw [toLower_fix h]

theorem tagFree_map_toLower {s : List Char} (h : TagFree s) :
    TagFree (s.map Char.toLower) := by
  induction s with
  | nil => trivial
  | cons c cs ih =>
    rcases h with ⟨h1, h2⟩
    refine tagFree_cons.mpr ⟨fun hc => fun hm => ?_, ih h2⟩
    rcases List.mem_map.mp hm with ⟨a, ha, hma⟩
    have ha2 : a = '>' := (toLower_eq_iff (by decide) (by decide)).mp hma
    exact h1 ((toLower_eq_iff (by decide) (by decide)).mp hc) (ha2 ▸ ha)

theorem ampOk_map_toLower {s : List Char} (h : AmpOk s) :
    AmpOk (s.map Char.toLower) := by
  induction s with
  | nil => trivial
  | cons c cs ih =>
    rcases h with ⟨h1, h2⟩
    refine ampOk_cons.mpr ⟨fun hc => ?_, ih h2⟩
    rcases h1 ((toLower_eq_iff (by decide) (by decide)).mp hc) with hh | hh
    · cases cs with
      | nil => simp at hh
      | cons d ds =>
        have hd : d = ';' := by simpa using hh
        refine Or.inl ?_
        simp only [List.map_cons, List.head?_cons, hd]
        rw [show Char.toLower ';' = ';' from by decide]
    · refine Or.inr fun hm => ?_
      rcases List.mem_map.mp hm with ⟨a, ha, hma⟩
      exact hh (((toLower_eq_iff (by decide) (by decide)).mp hma) ▸ ha)

theorem wsNorm_map_toLower {s : List Char} (h : WsNorm s) :
    WsNorm (s.map Char.toLower) := by
  refine ⟨?_, ?_⟩
  · intro c hc hw
    rcases List.mem_map.mp hc with ⟨a, ha, rfl⟩
    rw [jsWs_toLower] at hw
    rw [h.1 a ha hw]
    decide
  · rw [List.chain'_map]
    refine h.2.imp ?_
    intro a b hab hcon
    rw [jsWs_toLower, jsWs_toLower] at hcon
    exact hab hcon

theorem lowerFixed_map_toLower (s : List Char) : LowerFixed (s.map Char.toLower) := by
  intro c hc
  rcases List.mem_map.mp hc with ⟨a, _, rfl⟩
  exact toLower_idem a

theorem map_toLower_of_lowerFixed {s : List Char} (h : LowerFixed s) :
    s.map Char.toLower = s := by
  induction s with
  | nil => rfl
  | cons c cs ih =>
    rw [List.map_cons, h c (List.mem_cons_self c cs),
      ih fun x hx => h x (List.mem_cons_of_mem _ hx)]

/-! ### `trimL`: infix and idempotence -/

theorem dropWhile_head_false {p : Char → Bool} {l : List Char}
    (h : ∀ x ∈ l.head?, p x = false) : l.dropWhile p = l := by
  cases l with
  | nil => rfl
  | cons c cs =>
    have hc : p c = false := h c (by simp)
    simp [List.dropWhile_cons, hc]

theorem head?_dropWhile_false (p : Char → Bool) (l : List Char) :
    ∀ x ∈ (l.dropWhile p).head?, p x = false := by
  intro x hx
  have hmatch := List.head?_dropWhile_not p l
  rw [Option.mem_def] at hx
  rw [hx] at hmatch
  exact hmatch

theorem trimL_infix (s : List Char) : trimL s <:+: s := by
  unfold trimL
  have h1 : s.dropWhile jsWs <:+ s := List.dropWhile_suffix jsWs
  have h2 : (s.dropWhile jsWs).reverse.dropWhile jsWs <:+ (s.dropWhile jsWs).reverse :=
    List.dropWhile_suffix jsWs
  have h3 : ((s.dropWhile jsWs).reverse.dropWhile jsWs).reverse <+: s.dropWhile jsWs := by
    have := List.reverse_prefix.mpr h2
    rwa [List.reverse_reverse] at this
  exact h3.isInfix.trans h1.isInfix

theorem trimL_idem (s : List Char) : trimL (trimL s) = trimL s := by
  have hahead : ∀ x ∈ ((s.dropWhile jsWs).head?), jsWs x = false :=
    head?_dropWhile_false _ _
  have hbhead :
      ∀ x ∈ (((s.dropWhile jsWs).reverse.dropWhile jsWs).head?), jsWs x = false :=
    head?_dropWhile_false _ _
  set a := s.dropWhile jsWs with ha
  set b := a.reverse.dropWhile jsWs with hb
  show ((b.reverse.dropWhile jsWs).reverse.dropWhile jsWs).reverse = b.reverse
  by_cases hbe : b = []
  · rw [hbe]
    rfl
  · have h1 : b.reverse.dropWhile jsWs = b.reverse := by
      apply dropWhile_head_false
      intro x hx
      rw [List.head?_reverse] at hx
      have hsfx : b <:+ a.reverse := hb ▸ List.dropWhile_suffix jsWs
      rcases hsfx with ⟨u, hu⟩
      have hg : a.reverse.getLast? = b.getLast? := by
        rw [← hu]
        exact List.getLast?_append_of_ne_nil u hbe
      rw [← hg] at hx
      rw [← List.head?_eq_getLast?_reverse] at hx
      exact hahead x hx
    rw [h1, List.reverse_reverse, dropWhile_head_false hbhead]

/-! ### Entity patterns cannot occur in an `AmpOk` string -/

theorem ampOk_head_cond {pre rest : List Char} (h : AmpOk (pre ++ '&' :: rest)) :
    rest.head? = some ';' ∨ ';' ∉ rest := by
  induction pre with
  | nil => exact h.1 rfl
  | cons c cs ih => exact ih h.2

theorem ampOk_not_infix {s pat w : List Char}
    (hok : AmpOk s) (hpat : pat = '&' :: (w ++ [';'])) (hmid : w ≠ [])
    (hsemi : ';' ∉ w) : ¬ pat <:+: s := by
  rintro ⟨u, v, rfl⟩
  subst hpat
  have hshape : u ++ '&' :: (w ++ [';']) ++ v = u ++ '&' :: (w ++ ';' :: v) := by
    simp
  rw [hshape] at hok
  rcases ampOk_head_cond hok with h | h
  · cases w with
    | nil => exact hmid rfl
    | cons m ms =>
      have hm : m = ';' := by simpa using h
      exact hsemi (hm ▸ List.mem_cons_self m ms)
  · exact h (by simp)

/-! ### Idempotence of `normalizeTitle` (claim C5) -/

theorem normalizeTitleL_invariants (s : List Char) :
    TagFree (normalizeTitleL s) ∧ AmpOk (normalizeTitleL s) ∧
      WsNorm (normalizeTitleL s) ∧ LowerFixed (normalizeTitleL s) := by
  unfold normalizeTitleL
  refine ⟨?_, ?_, ?_, ?_⟩
  · refine tagFree_infix (tagFree_map_toLower (tagFree_collapseWsAux
      (tagFree_stripEntities _ (le_refl _) ?_))) ( trimL_infix _)
    refine tagFree_replAux (by decide) (by decide) (by decide) (by decide) ?_
    refine tagFree_replAux (by decide) (by decide) (by decide) (by decide) ?_
    refine tagFree_replAux (by decide) (by decide) (by decide) (by decide) ?_
    refine tagFree_replAux (by decide) (by decide) (by decide) (by decide) ?_
    refine tagFree_replAux (by decide) (by decide) (by decide) (by decide) ?_
    refine tagFree_replAux (by decide) (by decide) (by decide) (by decide) ?_
    refine tagFree_replAux (by decide) (by decide) (by decide) (by decide) ?_
    exact tagFree_stripTags s
  · exact ampOk_infix (ampOk_map_toLower (ampOk_collapseWsAux
      (ampOk_stripEntities _ (le_refl _)))) ( trimL_infix _)
  · exact wsNorm_infix (wsNorm_map_toLower wsNorm_collapseWsAux) ( trimL_infix _)
  · exact lowerFixed_infix (lowerFixed_map_toLower _) ( trimL_infix _)

theorem normalizeTitleL_fix {u : List Char}
    (htf : TagFree u) (hao : AmpOk u) (hws : WsNorm u) (hlf : LowerFixed u) :
    normalizeTitleL u = trimL u := by
  unfold normalizeTitleL
  rw [stripTags_of_tagFree htf,
    replaceStr_of_not_infix
      ( ampOk_not_infix hao (w := "nbsp".data) (by decide) (by decide) (by decide)),
    replaceStr_of_not_infix
      ( ampOk_not_infix hao (w := "amp".data) (by decide) (by decide) (by decide)),
    replaceStr_of_not_infix
      ( ampOk_not_infix hao (w := "quot".data) (by decide) (by decide) (by decide)),
    replaceStr_of_not_infix
      ( ampOk_not_infix hao (w := "#8217".data) (by decide) (by decide) (by decide)),
    replaceStr_of_not_infix
      ( ampOk_not_infix hao (w := "#8216".data) (by decide) (by decide) (by decide)),
    replaceStr_of_not_infix
      ( ampOk_not_infix hao (w := "#39".data) (by decide) (by decide) (by decide)),
    replaceStr_of_not_infix
      ( ampOk_not_infix hao (w := "#038".data) (by decide) (by decide) (by decide)),
    stripEntities_of_ampOk u.length (le_refl _) hao,
    collapseWs_of_wsNorm hws,
    map_toLower_of_lowerFixed hlf]

theorem normalizeTitleL_idem (s : List Char) :
    normalizeTitleL (normalizeTitleL s) = normalizeTitleL s := by
  rcases normalizeTitleL_invariants s with ⟨htf, hao, hws, hlf⟩
  rw [normalizeTitleL_fix htf hao hws hlf]
  exact trimL_idem _

/-- C5: the title-normalization function (strip tags, decode the fixed entity
set, remove remaining entities, collapse whitespace, lowercase, trim) is
idempotent: `normalize(normalize(s)) == normalize(s)` for every string. -/
theorem C5_normalizeTitle_idempotent (s : String) :
    normalizeTitle (normalizeTitle s) = normalizeTitle s := by
  by_cases h : s = ""
  · subst h
    rfl
  · have h1 : normalizeTitle s = String.mk (normalizeTitleL s.data) := if_neg h
    rw [h1]
    by_cases h2 : String.mk (normalizeTitleL s.data) = ""
    · rw [h2]
      rfl
    · rw [normalizeTitle, if_neg h2]
      show String.mk (normalizeTitleL (normalizeTitleL s.data)) =
        String.mk (normalizeTitleL s.data)
      rw [normalizeTitleL_idem]

theorem wdFrom_append (a b : List Ev) (p : Bool) :
    wdFrom p (a ++ b) = (wdFrom p a && wdFrom (endD p a) b) := by
  induction a generalizing p with
  | nil => simp [wdFrom, endD]
  | cons ev rest ih =>
    match ev with
    | Ev.delay => simpa [wdFrom, endD] using ih true
    | Ev.read q => simpa [wdFrom, endD] using ih false
    | Ev.write w =>
      simp only [List.cons_append, wdFrom, endD, List.append_eq]
      rw [ih false, Bool.and_assoc]

theorem wdAll_append {a b : List Ev} (ha : WdAll a) (hb : WdAll b) : WdAll (a ++ b) := by
  intro p
  rw [wdFrom_append, ha p, hb (endD p a)]
  rfl

theorem wdAll_nil : WdAll [] := fun _ => rfl

theorem wdAll_readsOnly {tr : List Ev} (h : readsOnly tr = true) : WdAll tr := by
  induction tr with
  | nil => exact wdAll_nil
  | cons ev rest ih =>
    simp only [readsOnly, List.all_cons, Bool.and_eq_true] at h
    cases ev with
    | read q =>
      intro p
      show wdFrom false rest = true
      exact ih h.2 false
    | write w => simp at h
    | delay => simp at h

theorem wdAll_delay_write (w : WriteQ) : WdAll [Ev.delay, Ev.write w] := by
  intro p
  rfl

theorem wdAll_delay : WdAll [Ev.delay] := fun _ => rfl

theorem wdAll_of_eq {a b : List Ev} (h : a = b) (hb : WdAll b) : WdAll a := h ▸ hb

theorem notMem_delay_of_readsOnly {tr : List Ev} (h : readsOnly tr = true) :
    Ev.delay ∉ tr := by
  intro hm
  have h2 := List.all_eq_true.mp h _ hm
  simp at h2

theorem notMem_write_of_readsOnly {tr : List Ev} (h : readsOnly tr = true) (w : WriteQ) :
    Ev.write w ∉ tr := by
  intro hm
  have h2 := List.all_eq_true.mp h _ hm
  simp at h2

/-! ### Traces of the individual operations -/

theorem wdAll_getOrCreateTerm (env : WpEnv) (name taxonomy : String) :
    WdAll (getOrCreateTerm env name taxonomy).2 := by
  unfold getOrCreateTerm
  repeat' split
  all_goals intro p
  all_goals rfl

theorem wdAll_resolveTermsGo (env : WpEnv) (tax : String) :
    ∀ names, WdAll (resolveTermsGo env tax names).2
  | [] => wdAll_nil
  | n :: rest => by
    show WdAll ((getOrCreateTerm env n tax).2 ++ [Ev.delay] ++
      (resolveTermsGo env tax rest).2)
    exact wdAll_append (wdAll_append (wdAll_getOrCreateTerm env n tax) wdAll_delay)
      (wdAll_resolveTermsGo env tax rest)

theorem wdAll_resolveTerms (env : WpEnv) (ts tax : String) :
    WdAll (resolveTerms env ts tax).2 := by
  unfold resolveTerms
  split
  · exact wdAll_nil
  · exact wdAll_resolveTermsGo env tax _

theorem readsOnly_findPostBySlug (env : WpEnv) (s : String) :
    readsOnly (findPostBySlug env s).2 = true := by
  unfold findPostBySlug
  repeat' split
  all_goals rfl

theorem readsOnly_findPostById (env : WpEnv) (i : String) :
    readsOnly (findPostById env i).2 = true := by
  unfold findPostById
  repeat' split
  all_goals rfl

theorem readsOnly_findLoop (env : WpEnv) (target : String) :
    ∀ fuel page, readsOnly (findLoop env target fuel page).2 = true
  | 0, _ => rfl
  | fuel + 1, page => by
    unfold findLoop
    repeat' split
    all_goals try rfl
    show readsOnly (Ev.read (.postsPage 100 page "any" "date" "desc") ::
      (findLoop env target fuel (page + 1)).2) = true
    simp only [readsOnly, List.all_cons]
    exact readsOnly_findLoop env target fuel (page + 1)

theorem readsOnly_findPostByTitle (env : WpEnv) (t : String) :
    readsOnly (findPostByTitle env t).2 = true := by
  unfold findPostByTitle
  split
  · rfl
  · exact readsOnly_findLoop env _ 10 1

theorem readsOnly_downloadImageCreate (env : WpEnv) (u : String) :
    readsOnly (downloadImageCreate env u).2 = true := by
  unfold downloadImageCreate
  repeat' split
  all_goals rfl

theorem readsOnly_downloadImageUpdate (env : WpEnv) (u : String) :
    readsOnly (downloadImageUpdate env u).2 = true := by
  unfold downloadImageUpdate
  repeat' split
  all_goals rfl

theorem readsOnly_acquireLocal (env : WpEnv) (p : String) :
    readsOnly (acquireLocal env p).2 = true := by
  unfold acquireLocal
  repeat' split
  all_goals rfl

theorem readsOnly_acquireCreate (env : WpEnv) (p : String) :
    readsOnly (acquireCreate env p).2 = true := by
  unfold acquireCreate
  split
  · exact readsOnly_downloadImageCreate env _
  · exact readsOnly_acquireLocal env _

theorem readsOnly_acquireUpdate (env : WpEnv) (p : String) :
    readsOnly (acquireUpdate env p).2 = true := by
  unfold acquireUpdate
  split
  · exact readsOnly_downloadImageUpdate env _
  · exact readsOnly_acquireLocal env _

theorem wdAll_uploadStep (env : WpEnv) {acq : Option MediaAsset × List Ev}
    (h : readsOnly acq.2 = true) : WdAll (uploadStep env acq).2 := by
  rcases acq with ⟨o, tr⟩
  have hw : WdAll tr := wdAll_readsOnly h
  match o with
  | none => exact hw
  | some asset =>
    show WdAll ((match env.mediaUpload asset with
      | .ok i => ((some i : Option Nat),
          tr ++ [Ev.delay, Ev.write (.media asset.fileName asset.mimeType)])
      | .error _ => ((none : Option Nat),
          tr ++ [Ev.delay, Ev.write (.media asset.fileName asset.mimeType)])).2)
    split
    · exact wdAll_append hw (wdAll_delay_write _)
    · exact wdAll_append hw (wdAll_delay_write _)

theorem wdAll_uploadMediaCreate (env : WpEnv) (src : String) :
    WdAll (uploadMediaCreate env src).2 := by
  unfold uploadMediaCreate
  split
  · exact wdAll_nil
  · exact wdAll_uploadStep env (readsOnly_acquireCreate env _)

theorem wdAll_uploadMediaUpdate (env : WpEnv) (src : String) :
    WdAll (uploadMediaUpdate env src).2 := by
  unfold uploadMediaUpdate
  split
  · exact wdAll_nil
  · exact wdAll_uploadStep env (readsOnly_acquireUpdate env _)

theorem wdAll_rowCats (env : WpEnv) (row : Row) : WdAll (rowCats env row).2 := by
  unfold rowCats
  split
  · exact wdAll_resolveTerms env _ _
  · exact wdAll_nil

theorem wdAll_rowTags (env : WpEnv) (row : Row) : WdAll (rowTags env row).2 := by
  unfold rowTags
  split
  · exact wdAll_resolveTerms env _ _
  · exact wdAll_nil

theorem wdAll_rowMediaCreate (env : WpEnv) (row : Row) :
    WdAll (rowMediaCreate env row).2 := by
  unfold rowMediaCreate
  split
  · exact wdAll_uploadMediaCreate env _
  · exact wdAll_nil

theorem wdAll_rowMediaUpdate (env : WpEnv) (row : Row) :
    WdAll (rowMediaUpdate env row).2 := by
  unfold rowMediaUpdate
  split
  · exact wdAll_uploadMediaUpdate env _
  · exact wdAll_nil

theorem wdAll_buildPostData (env : WpEnv) (d : String) (row : Row) :
    WdAll (buildPostData env d row).2 :=
  wdAll_append (wdAll_append (wdAll_rowCats env row) (wdAll_rowTags env row))
    (wdAll_rowMediaCreate env row)

theorem wdAll_buildUpdateData (env : WpEnv) (row : Row) :
    WdAll (buildUpdateData env row).2 :=
  wdAll_append (wdAll_append (wdAll_rowCats env row) (wdAll_rowTags env row))
    (wdAll_rowMediaUpdate env row)

theorem readsOnly_resolveIdent (env : WpEnv) (row : Row) :
    readsOnly (resolveIdent env row).2 = true := by
  unfold resolveIdent
  split
  · rcases hid : findPostById env (val row.post_id) with ⟨r, tr⟩
    have h := readsOnly_findPostById env (val row.post_id)
    rw [hid] at h
    cases r <;> exact h
  · split
    · rcases hid : findPostBySlug env (val row.slug) with ⟨r, tr⟩
      have h := readsOnly_findPostBySlug env (val row.slug)
      rw [hid] at h
      cases r <;> exact h
    · split
      · rcases hid : findPostByTitle env (val row.title) with ⟨r, tr⟩
        have h := readsOnly_findPostByTitle env (val row.title)
        rw [hid] at h
        cases r <;> exact h
      · rfl

theorem wdAll_createTry (env : WpEnv) (d : String) (row : Row) :
    WdAll (createTry env d row).2 := by
  unfold createTry
  split
  · exact wdAll_nil
  split
  · exact wdAll_nil
  split
  next pd tr1 epid tr2 heq1 heq2 =>
    have hb : WdAll tr1 :=
      wdAll_of_eq (congrArg Prod.snd heq1).symm (wdAll_buildPostData env d row)
    have hd : WdAll tr2 :=
      wdAll_of_eq (congrArg Prod.snd heq2).symm
        (wdAll_readsOnly (readsOnly_findPostByTitle env (val row.title)))
    exact wdAll_append hb hd
  next pd tr1 tr2 heq1 heq2 =>
    have hb : WdAll tr1 :=
      wdAll_of_eq (congrArg Prod.snd heq1).symm (wdAll_buildPostData env d row)
    have hd : WdAll tr2 :=
      wdAll_of_eq (congrArg Prod.snd heq2).symm
        (wdAll_readsOnly (readsOnly_findPostByTitle env (val row.title)))
    have hsm : WdAll ((match pd.slug with
        | some sl => findPostBySlug env sl
        | none => ((none : Option Nat), ([] : List Ev))).2) := by
      split
      · exact wdAll_readsOnly (readsOnly_findPostBySlug env _)
      · exact wdAll_nil
    split
    next pid tr3 heq3 =>
      have hs : WdAll tr3 := wdAll_of_eq (congrArg Prod.snd heq3).symm hsm
      split
      · exact wdAll_append (wdAll_append (wdAll_append hb hd) hs) (wdAll_delay_write _)
      · exact wdAll_append (wdAll_append (wdAll_append hb hd) hs) (wdAll_delay_write _)
    next tr3 heq3 =>
      have hs : WdAll tr3 := wdAll_of_eq (congrArg Prod.snd heq3).symm hsm
      split
      · exact wdAll_append (wdAll_append (wdAll_append hb hd) hs) (wdAll_delay_write _)
      · exact wdAll_append (wdAll_append (wdAll_append hb hd) hs) (wdAll_delay_write _)

theorem wdAll_createOrUpdatePost (env : WpEnv) (d : String) (row : Row) (n : Nat) :
    WdAll (createOrUpdatePost env d row n).2 := by
  unfold createOrUpdatePost
  split
  all_goals rename_i heq
  · exact wdAll_of_eq (congrArg Prod.snd heq).symm (wdAll_createTry env d row)
  · exact wdAll_of_eq (congrArg Prod.snd heq).symm (wdAll_createTry env d row)

theorem wdAll_updateTry (env : WpEnv) (row : Row) :
    WdAll (updateTry env row).2.2 := by
  unfold updateTry
  split
  next e tr heq =>
    exact wdAll_of_eq (congrArg Prod.snd heq).symm
      (wdAll_readsOnly (readsOnly_resolveIdent env row))
  next postId tr heq =>
    have hi : WdAll tr :=
      wdAll_of_eq (congrArg Prod.snd heq).symm
        (wdAll_readsOnly (readsOnly_resolveIdent env row))
    have hrd : WdAll (tr ++ [Ev.read (.getPost postId)]) :=
      wdAll_append hi (wdAll_readsOnly rfl)
    split
    · exact hrd
    · split
      next ud tr2 heq2 =>
        have hb : WdAll tr2 :=
          wdAll_of_eq (congrArg Prod.snd heq2).symm (wdAll_buildUpdateData env row)
        split
        · exact wdAll_append hrd hb
        · split
          · exact wdAll_append (wdAll_append hrd hb) (wdAll_delay_write _)
          · exact wdAll_append (wdAll_append hrd hb) (wdAll_delay_write _)

theorem wdAll_updatePostRow (env : WpEnv) (row : Row) (n : Nat) :
    WdAll (updatePostRow env row n).2 := by
  unfold updatePostRow
  repeat' split
  all_goals rename_i heq
  all_goals
    exact wdAll_of_eq (congrArg (fun x => x.2.2) heq).symm (wdAll_updateTry env row)

/-! ## Helper lemmas about the row functions -/

theorem val_ne_empty_of_pres {f : Option String} (h : pres f = true) : val f ≠ "" := by
  match f with
  | none => simp [pres] at h
  | some s =>
    simp only [pres, ne_eq, decide_eq_true_eq] at h
    simpa [val] using h

theorem jsTrim_idem (s : String) : jsTrim (jsTrim s) = jsTrim s := by
  show String.mk (trimL (String.mk (trimL s.data)).data) = String.mk (trimL s.data)
  rw [show (String.mk (trimL s.data)).data = trimL s.data from rfl, trimL_idem]

theorem val_val (f : Option String) : jsTrim (val f) = val f := jsTrim_idem _

/-- Create-mode success actions are exactly `created` and `updated`. -/
theorem createTry_ok_action {env : WpEnv} {d : String} {row : Row}
    {act st : String} {pid : Nat} {tr : List Ev}
    (h : createTry env d row = (.ok (act, pid, st), tr)) :
    act = "created" ∨ act = "updated" := by
  unfold createTry at h
  split at h
  · simp at h
  split at h
  · simp at h
  split at h
  next => simp at h
  next =>
    split at h
    next =>
      split at h <;> simp at h
      · exact Or.inr h.1.1.symm
    next =>
      split at h <;> simp at h
      · exact Or.inl h.1.1.symm

theorem updateTry_error_of_resolve_error {env : WpEnv} {row : Row} {e : ApiError}
    {tr0 : List Ev} (h : resolveIdent env row = (.error e, tr0)) :
    updateTry env row = (.error e, none, tr0) := by
  unfold updateTry
  rw [h]

/-- The `result.postId` value carried out of the update-mode body equals the
resolved identifier when resolution succeeded, and is null otherwise. -/
theorem updateTry_snd_fst (env : WpEnv) (row : Row) :
    (updateTry env row).2.1 =
      (match (resolveIdent env row).1 with
       | .ok pid => some pid
       | .error _ => none) := by
  rcases hres : resolveIdent env row with ⟨res, tr0⟩
  cases res with
  | error e =>
    rw [updateTry_error_of_resolve_error hres]
  | ok pid =>
    unfold updateTry
    rw [hres]
    repeat' split
    all_goals simp_all

theorem updatePostRow_postId (env : WpEnv) (row : Row) (n : Nat) :
    (updatePostRow env row n).1.postId =
      (match (updateTry env row).1 with
       | .ok (rid, _) => some rid
       | .error _ => (updateTry env row).2.1) := by
  unfold updatePostRow
  rcases hu : updateTry env row with ⟨res, pidNow, tr⟩
  cases res with
  | ok pr =>
    rcases pr with ⟨rid, st⟩
    rfl
  | error e => rfl

/-! ## Claims -/

/-- C2: for every row processed in either mode, the per-row processing
function never raises to its caller (both row functions are total functions
into `Outcome`, with every body exception value landing in the catch
branch); the Outcome's error is the exception's message with the remote
response body appended when available, its action stays unset, and an
Outcome has a non-null error if and only if its action is 'none'. -/
theorem C2_row_exceptions_caught :
    ∀ (env : WpEnv) (d : String) (row : Row) (n : Nat),
      ((createOrUpdatePost env d row n).1.error ≠ none ↔
        (createOrUpdatePost env d row n).1.action = none) ∧
      ((updatePostRow env row n).1.error ≠ none ↔
        (updatePostRow env row n).1.action = none) ∧
      (∀ e tr, createTry env d row = (.error e, tr) →
        (createOrUpdatePost env d row n).1.error =
          some (match e.responseData with
                | none => e.message
                | some b => e.message ++ ": " ++ b)) ∧
      (∀ e pid tr, updateTry env row = (.error e, pid, tr) →
        (updatePostRow env row n).1.error =
          some (match e.responseData with
                | none => e.message
                | some b => e.message ++ ": " ++ b)) := by
  intro env d row n
  refine ⟨?_, ?_, ?_, ?_⟩
  · unfold createOrUpdatePost
    rcases h : createTry env d row with ⟨res, tr⟩
    cases res with
    | ok v =>
      rcases v with ⟨act, pid, st⟩
      simp
    | error e => simp
  · unfold updatePostRow
    rcases h : updateTry env row with ⟨res, pidNow, tr⟩
    cases res with
    | ok v =>
      rcases v with ⟨pid, st⟩
      simp
    | error e => simp
  · intro e tr h
    unfold createOrUpdatePost
    rw [h]
    rfl
  · intro e pid tr h
    unfold updatePostRow
    rw [h]
    rfl

theorem C2_witness :
    (updatePostRow envT rowIdOnly 1).1.error =
      some "No fields to update. Provide at least one field to update." :=
  (C2_row_exceptions_caught envT "draft" rowIdOnly 1).2.2.2
    ⟨"No fields to update. Provide at least one field to update.", none⟩
    (some 5) [Ev.read (.postById "5"), Ev.read (.getPost 5)] (by rfl)

/-- C1 counterexample: in update mode, a row whose `post_id` resolves (to
post 5 here) but whose sparse payload is empty ends with a non-null error
and action 'none' while its `postId` is still the non-null resolved id —
the claimed equivalence `postId ≠ null ↔ action ∈ {created, updated}` fails
on the code. -/
theorem C1_counterexample :
    (updatePostRow envT rowIdOnly 1).1.postId = some 5 ∧
    (updatePostRow envT rowIdOnly 1).1.action = none ∧
    (updatePostRow envT rowIdOnly 1).1.error =
      some "No fields to update. Provide at least one field to update." := by
  refine ⟨by decide, by decide, by decide⟩

/-- C1 (amended): in create mode `postId ≠ null ↔ action ∈ {created,
updated}`; in update mode `action = 'updated'` still implies `postId ≠
null`, but `postId` is non-null exactly when the identifier resolution
succeeded, so a row failing after its identifier resolves ends with a
non-null error *and* a non-null postId. -/
theorem C1_amended_postId_iff :
    ∀ (env : WpEnv) (d : String) (row : Row) (n : Nat),
      ((createOrUpdatePost env d row n).1.postId ≠ none ↔
        ((createOrUpdatePost env d row n).1.action = some "created" ∨
         (createOrUpdatePost env d row n).1.action = some "updated")) ∧
      ((updatePostRow env row n).1.action = some "updated" →
        (updatePostRow env row n).1.postId ≠ none) ∧
      ((updatePostRow env row n).1.postId ≠ none ↔
        ∃ pid, (resolveIdent env row).1 = .ok pid) := by
  intro env d row n
  refine ⟨?_, ?_, ?_⟩
  · unfold createOrUpdatePost
    rcases h : createTry env d row with ⟨res, tr⟩
    cases res with
    | ok v =>
      rcases v with ⟨act, pid, st⟩
      simpa using createTry_ok_action h
    | error e => simp
  · unfold updatePostRow
    rcases h : updateTry env row with ⟨res, pidNow, tr⟩
    cases res with
    | ok v =>
      rcases v with ⟨pid, st⟩
      simp
    | error e => simp
  · rw [updatePostRow_postId]
    rcases hres : resolveIdent env row with ⟨res, tr0⟩
    cases res with
    | error e =>
      rw [updateTry_error_of_resolve_error hres]
      simp
    | ok pid =>
      have hsnd := updateTry_snd_fst env row
      rw [hres] at hsnd
      constructor
      · intro _
        exact ⟨pid, rfl⟩
      · intro _
        cases hu : (updateTry env row).1 with
        | ok pr =>
          rcases pr with ⟨rid, st⟩
          simp
        | error e =>
          rw [hsnd]
          simp

theorem C1_amended_witness :
    (updatePostRow envT rowSlugOnly 1).1.postId ≠ none :=
  (C1_amended_postId_iff envT "draft" rowSlugOnly 1).2.1 (by decide)

/-- C3: in create mode the normalized-title duplicate search runs before the
slug lookup: whenever the title search finds an existing post the row fails
with the explicit duplicate error and action 'none' — for every row, hence in
particular when the row's slug matches an existing post — and the slug-based
update branch (action 'updated') is reached only when the title search found
nothing. -/
theorem C3_dup_gate_before_slug :
    (∀ (env : WpEnv) (d : String) (row : Row) (n : Nat) (epid : Nat),
      pres row.title = true → pres row.content = true →
      (findPostByTitle env (val row.title)).1 = some epid →
      (createOrUpdatePost env d row n).1.action = none ∧
      (createOrUpdatePost env d row n).1.error =
        some (dupMsg (val row.title) epid)) ∧
    (∀ (env : WpEnv) (d : String) (row : Row) (n : Nat),
      (createOrUpdatePost env d row n).1.action = some "updated" →
      (findPostByTitle env (val row.title)).1 = none) := by
  constructor
  · intro env d row n epid ht hc hdup
    unfold createOrUpdatePost createTry
    rcases hbp : buildPostData env d row with ⟨pd, tr1⟩
    rcases hft : findPostByTitle env (val row.title) with ⟨dup, tr2⟩
    rw [hft] at hdup
    simp only at hdup
    subst hdup
    rw [if_neg (by simp [ht]), if_neg (by simp [hc])]
    exact ⟨rfl, rfl⟩
  · intro env d row n hupd
    unfold createOrUpdatePost at hupd
    rcases hct : createTry env d row with ⟨res, tr⟩
    rw [hct] at hupd
    cases res with
    | error e => simp at hupd
    | ok v =>
      rcases v with ⟨act, pid, st⟩
      unfold createTry at hct
      split at hct
      · simp at hct
      split at hct
      · simp at hct
      split at hct
      next pd tr1 epid tr2 heq1 heq2 => simp at hct
      next pd tr1 tr2 heq1 heq2 => exact congrArg Prod.fst heq2

theorem C3_witness :
    (createOrUpdatePost envT "draft"
      { title := some "Old", content := some "body", slug := some "my-slug" } 1).1.action =
        some "updated" ∧
    (findPostByTitle envT
      (val (some ("Old" : String)))).1 = none :=
  ⟨by decide,
    (C3_dup_gate_before_slug).2 envT "draft"
      { title := some "Old", content := some "body", slug := some "my-slug" } 1 (by decide)⟩

/-- The cap behaviour of the pagination loop: when every page up to the 10th
is full (100 items) and matchless, the loop returns `none`. -/
theorem findLoop_cap (env : WpEnv) (target : String) :
    ∀ fuel page, 1 ≤ page → page ≤ 10 →
      (∀ k, page ≤ k → k ≤ 10 → ∃ posts, env.postsPage k = .ok posts ∧
        posts.length = 100 ∧
        posts.find? (fun p => normalizeTitle p.title == target) = none) →
      (findLoop env target fuel page).1 = none := by
  intro fuel
  induction fuel with
  | zero =>
    intro page _ _ _
    rfl
  | succ fuel ih =>
    intro page hpage hp10 hpages
    rcases hpages page (le_refl _) hp10 with ⟨posts, hok, hlen, hfind⟩
    have heF : posts.isEmpty = false := by
      cases hie : posts.isEmpty
      · rfl
      · rw [List.isEmpty_iff] at hie
        rw [hie] at hlen
        simp at hlen
    have hlenF : ¬ posts.length < 100 := by omega
    unfold findLoop
    simp only [hok, hfind, heF, Bool.false_eq_true, if_false, if_neg hlenF]
    split
    · rfl
    · rename_i hcap
      exact ih (page + 1) (by omega) (by omega)
        fun k hk1 hk2 => hpages k (by omega) hk2

/-- The per-page trace of the pagination loop: at most `fuel` page reads, and
every event is a `GET /posts` page request with `per_page=100`,
`status=any`, `orderby=date`, `order=desc` and a page number between the
start page and 10. -/
theorem findLoop_trace (env : WpEnv) (target : String) :
    ∀ fuel page, page ≤ 10 →
      (findLoop env target fuel page).2.length ≤ fuel ∧
      (∀ ev ∈ (findLoop env target fuel page).2, ∃ k, page ≤ k ∧ k ≤ 10 ∧
        ev = Ev.read (.postsPage 100 k "any" "date" "desc")) := by
  intro fuel
  induction fuel with
  | zero =>
    intro page _
    exact ⟨by simp [findLoop], by simp [findLoop]⟩
  | succ fuel ih =>
    intro page hpage
    unfold findLoop
    split
    · exact ⟨by simp, by
        intro ev hev
        simp only [List.mem_singleton] at hev
        exact ⟨page, le_refl _, hpage, hev⟩⟩
    · split
      · exact ⟨by simp, by
          intro ev hev
          simp only [List.mem_singleton] at hev
          exact ⟨page, le_refl _, hpage, hev⟩⟩
      · split
        · exact ⟨by simp, by
            intro ev hev
            simp only [List.mem_singleton] at hev
            exact ⟨page, le_refl _, hpage, hev⟩⟩
        · split
          · exact ⟨by simp, by
              intro ev hev
              simp only [List.mem_singleton] at hev
              exact ⟨page, le_refl _, hpage, hev⟩⟩
          · split
            · exact ⟨by simp, by
                intro ev hev
                simp only [List.mem_singleton] at hev
                exact ⟨page, le_refl _, hpage, hev⟩⟩
            · rename_i hlt hcap
              have hple : page + 1 ≤ 10 := by omega
              rcases ih (page + 1) hple with ⟨hlen, hev⟩
              constructor
              · simpa using Nat.succ_le_succ hlen
              · intro ev hmem
                rcases List.mem_cons.mp hmem with hmem | hmem
                · exact ⟨page, le_refl _, hpage, hmem⟩
                · rcases hev ev hmem with ⟨k, hk1, hk2, hk3⟩
                  exact ⟨k, by omega, hk2, hk3⟩

/-- C4: the duplicate search by title terminates (it is a total function); it
issues at most 10 page requests, each a `GET /posts` with `per_page=100`,
`status=any`, newest-first ordering and a page number between 1 and 10; and
when all ten pages are full without an exact normalized match it returns
`none` rather than raising or looping further. -/
theorem C4_title_search_pagination :
    ∀ (env : WpEnv) (title : String),
      (findPostByTitle env title).2.length ≤ 10 ∧
      (∀ ev ∈ (findPostByTitle env title).2, ∃ k, 1 ≤ k ∧ k ≤ 10 ∧
        ev = Ev.read (.postsPage 100 k "any" "date" "desc")) ∧
      ((∀ k, 1 ≤ k → k ≤ 10 → ∃ posts, env.postsPage k = .ok posts ∧
          posts.length = 100 ∧
          posts.find? (fun p => normalizeTitle p.title == normalizeTitle title) = none) →
        (findPostByTitle env title).1 = none) := by
  intro env title
  unfold findPostByTitle
  split
  · exact ⟨by simp, by simp, fun _ => rfl⟩
  · rcases findLoop_trace env (normalizeTitle title) 10 1 (by omega) with ⟨h1, h2⟩
    exact ⟨h1, h2, fun hcap =>
      findLoop_cap env (normalizeTitle title) 10 1 (le_refl _) (by omega) hcap⟩

theorem C4_witness : (findPostByTitle envCap "Something Else").1 = none :=
  (C4_title_search_pagination envCap "Something Else").2.2
    (fun k _ _ => ⟨capPage, rfl, by decide, by decide⟩)

/-- C7 counterexample: resolving the term `News`, which already exists,
performs only the read-only taxonomy search and yet awaits a pacing delay —
the trace is exactly one read followed by one delay, with no write: delays
are awaited after read-only lookups too, contradicting the claim that no
read-only lookup is accompanied by a pacing delay. -/
theorem C7_counterexample :
    (resolveTerms envT "News" "categories").2 =
      [Ev.read (.termSearch "categories" "News" 100), Ev.delay] := by
  decide

/-- C7 (amended): every remote write in a row trace (term creation, media
upload, post create, post update) is immediately preceded by a pacing delay,
in both modes; the point lookups (slug, id) and the title-listing pages
themselves never await a delay; but term resolution additionally awaits a
delay after every term name, also when the term already existed and only a
read-only search was performed. -/
theorem C7_amended_delay_discipline :
    (∀ (env : WpEnv) (d : String) (row : Row) (n : Nat) (p : Bool),
      wdFrom p (createOrUpdatePost env d row n).2 = true) ∧
    (∀ (env : WpEnv) (row : Row) (n : Nat) (p : Bool),
      wdFrom p (updatePostRow env row n).2 = true) ∧
    (∀ (env : WpEnv) (t : String), Ev.delay ∉ (findPostByTitle env t).2) ∧
    (∀ (env : WpEnv) (s : String), Ev.delay ∉ (findPostBySlug env s).2) ∧
    (∀ (env : WpEnv) (i : String), Ev.delay ∉ (findPostById env i).2) ∧
    (∀ (env : WpEnv) (name tax : String),
      (getOrCreateTerm env name tax).1 ≠ none ∨ (getOrCreateTerm env name tax).2 ≠ [] →
      (resolveTermsGo env tax [name]).2 =
        (getOrCreateTerm env name tax).2 ++ [Ev.delay]) := by
  refine ⟨?_, ?_, ?_, ?_, ?_, ?_⟩
  · intro env d row n p
    exact wdAll_createOrUpdatePost env d row n p
  · intro env row n p
    exact wdAll_updatePostRow env row n p
  · intro env t
    exact notMem_delay_of_readsOnly (readsOnly_findPostByTitle env t)
  · intro env s
    exact notMem_delay_of_readsOnly (readsOnly_findPostBySlug env s)
  · intro env i
    exact notMem_delay_of_readsOnly (readsOnly_findPostById env i)
  · intro env name tax _
    show (getOrCreateTerm env name tax).2 ++ [Ev.delay] ++ [] =
      (getOrCreateTerm env name tax).2 ++ [Ev.delay]
    rw [List.append_nil]

theorem C7_amended_witness :
    wdFrom false (createOrUpdatePost envT "draft"
      { title := some "T", content := some "c", categories := some "News, Fresh" } 1).2 =
        true :=
  (C7_amended_delay_discipline).1 envT "draft"
    { title := some "T", content := some "c", categories := some "News, Fresh" } 1 false

/-- C8: in update mode, when the row's `post_id` is populated and resolves to
an existing post but every other settable column is absent or blank, the
sparse payload is empty, the row fails with the nothing-to-update error and
action `none`, and the whole row trace consists of read events only — in
particular no update call is issued for the row. -/
theorem C8_empty_update_rejected (env : WpEnv) (row : Row) (n pid : Nat)
    (hpid : pres row.post_id = true)
    (hid : (resolveIdent env row).1 = .ok pid)
    (hget : env.getPost pid = .ok ())
    (ht : pres row.title = false) (hc : pres row.content = false)
    (hs : pres row.status = false) (hsl : pres row.slug = false)
    (he : pres row.excerpt = false) (ha : pres row.acf_json = false)
    (hcat : pres row.categories = false) (htag : pres row.tags = false)
    (hip : pres row.featured_image_path = false)
    (hiu : pres row.featured_image_url = false) :
    (buildUpdateData env row).1.isEmpty = true ∧
    (updatePostRow env row n).1.action = none ∧
    (updatePostRow env row n).1.error =
      some "No fields to update. Provide at least one field to update." ∧
    readsOnly (updatePostRow env row n).2 = true := by
  have hcats : rowCats env row = ([], []) := by simp [rowCats, hcat]
  have htags2 : rowTags env row = ([], []) := by simp [rowTags, htag]
  have himg : rowImagePath row = "" := by simp [rowImagePath, hip, hiu]
  have hmedia : rowMediaUpdate env row = (none, []) := by simp [rowMediaUpdate, himg]
  have hpay : buildUpdateDataPayload env row [] [] none = {} := by
    simp [buildUpdateDataPayload, ht, hc, hs, hsl, he, ha]
  have hbud : buildUpdateData env row = ({}, []) := by
    rw [buildUpdateData, hcats, htags2, hmedia]
    show (buildUpdateDataPayload env row [] [] none, ([] : List Ev) ++ [] ++ []) = ({}, [])
    rw [hpay]
    rfl
  rcases hri : resolveIdent env row with ⟨r1, tr⟩
  rw [hri] at hid
  have hr1 : r1 = .ok pid := hid
  subst hr1
  have hro : readsOnly tr = true := by
    have h := readsOnly_resolveIdent env row
    rw [hri] at h
    exact h
  have hut : updateTry env row =
      (.error ⟨"No fields to update. Provide at least one field to update.", none⟩,
        some pid, tr ++ [Ev.read (.getPost pid)] ++ []) := by
    unfold updateTry
    rw [hri]
    simp only [hget, hbud]
    rfl
  refine ⟨?_, ?_, ?_, ?_⟩
  · rw [hbud]
    rfl
  · unfold updatePostRow
    rw [hut]
  · unfold updatePostRow
    rw [hut]
    rfl
  · unfold updatePostRow
    rw [hut]
    show readsOnly (tr ++ [Ev.read (.getPost pid)] ++ []) = true
    simp only [readsOnly] at hro ⊢
    simp [hro]

theorem C8_witness :
    (updatePostRow envT rowIdOnly 1).1.error =
      some "No fields to update. Provide at least one field to update." :=
  (C8_empty_update_rejected envT rowIdOnly 1 5 rfl (by rfl) rfl rfl rfl rfl rfl
    rfl rfl rfl rfl rfl rfl).2.2.1

/-- C10: in update mode a row whose only populated column is `slug` is not
rejected as an empty update: the slug used to identify the post is itself
copied into the sparse payload, so when a post with that slug exists and the
update call succeeds the Outcome has action `updated`; concretely, against
the same environment a slug-only row is updated while a post-id-only row
fails with the nothing-to-update error. -/
theorem C10_slug_only_vs_id_only :
    (∀ (env : WpEnv) (row : Row) (n pid : Nat) (r : PostResp),
      pres row.post_id = false → pres row.slug = true →
      pres row.title = false → pres row.content = false →
      pres row.status = false → pres row.excerpt = false →
      pres row.acf_json = false → pres row.categories = false →
      pres row.tags = false → pres row.featured_image_path = false →
      pres row.featured_image_url = false →
      (findPostBySlug env (val row.slug)).1 = some pid →
      env.getPost pid = .ok () →
      env.updateCall pid { slug := some (val row.slug) } = .ok r →
      (buildUpdateData env row).1 = { slug := some (val row.slug) } ∧
      (buildUpdateData env row).1.isEmpty = false ∧
      (updatePostRow env row n).1.action = some "updated" ∧
      (updatePostRow env row n).1.error = none) ∧
    (updatePostRow envT rowSlugOnly 1).1.action = some "updated" ∧
    (updatePostRow envT rowIdOnly 1).1.action = none ∧
    (updatePostRow envT rowIdOnly 1).1.error =
      some "No fields to update. Provide at least one field to update." := by
  refine ⟨?_, by decide, by decide, by decide⟩
  intro env row n pid r hpid hslug ht hc hs he ha hcat htag hip hiu hfind hget hup
  have hcats : rowCats env row = ([], []) := by simp [rowCats, hcat]
  have htags2 : rowTags env row = ([], []) := by simp [rowTags, htag]
  have himg : rowImagePath row = "" := by simp [rowImagePath, hip, hiu]
  have hmedia : rowMediaUpdate env row = (none, []) := by simp [rowMediaUpdate, himg]
  have hpay : buildUpdateDataPayload env row [] [] none =
      { slug := some (val row.slug) } := by
    simp [buildUpdateDataPayload, ht, hc, hs, hslug, he, ha]
  have hbud : buildUpdateData env row = ({ slug := some (val row.slug) }, []) := by
    rw [buildUpdateData, hcats, htags2, hmedia]
    show (buildUpdateDataPayload env row [] [] none, ([] : List Ev) ++ [] ++ []) =
      ({ slug := some (val row.slug) }, [])
    rw [hpay]
    rfl
  rcases hfs : findPostBySlug env (val row.slug) with ⟨o, tr⟩
  rw [hfs] at hfind
  have ho : o = some pid := hfind
  subst ho
  have hri : resolveIdent env row = (.ok pid, tr) := by
    unfold resolveIdent
    simp only [hpid, hslug, Bool.false_eq_true, if_false, if_true, hfs]
  have hut : updateTry env row =
      (.ok (r.id, r.status), some pid,
        tr ++ [Ev.read (.getPost pid)] ++ [] ++
          [Ev.delay, Ev.write (.postUpdate pid { slug := some (val row.slug) })]) := by
    unfold updateTry
    rw [hri]
    simp only [hget, hbud, hup]
    rfl
  refine ⟨?_, ?_, ?_, ?_⟩
  · rw [hbud]
  · rw [hbud]
    rfl
  · unfold updatePostRow
    rw [hut]
  · unfold updatePostRow
    rw [hut]

theorem C10_witness :
    (buildUpdateData envT rowSlugOnly).1.isEmpty = false ∧
    (updatePostRow envT rowSlugOnly 2).1.action = some "updated" :=
  ⟨((C10_slug_only_vs_id_only).1 envT rowSlugOnly 2 7 ⟨7, "publish"⟩ rfl rfl rfl
      rfl rfl rfl rfl rfl rfl rfl rfl (by rfl) rfl rfl).2.1,
    ((C10_slug_only_vs_id_only).1 envT rowSlugOnly 2 7 ⟨7, "publish"⟩ rfl rfl rfl
      rfl rfl rfl rfl rfl rfl rfl rfl (by rfl) rfl rfl).2.2.1⟩

/-- The create-mode download trace is always the single fetch of its URL. -/
theorem downloadImageCreate_trace (env : WpEnv) (u : String) :
    (downloadImageCreate env u).2 = [Ev.read (.download u)] := by
  unfold downloadImageCreate
  repeat' split
  all_goals rfl

/-- The update-mode download trace is always the single fetch of its URL. -/
theorem downloadImageUpdate_trace (env : WpEnv) (u : String) :
    (downloadImageUpdate env u).2 = [Ev.read (.download u)] := by
  unfold downloadImageUpdate
  repeat' split
  all_goals rfl

theorem uploadStep_downloadCreate_head (env : WpEnv) (u : String) :
    (uploadStep env (downloadImageCreate env u)).2.head? =
      some (Ev.read (.download u)) := by
  have ht := downloadImageCreate_trace env u
  rcases hd : downloadImageCreate env u with ⟨o, tr⟩
  rw [hd] at ht
  subst ht
  match o with
  | none => rfl
  | some asset =>
    show (match env.mediaUpload asset with
      | .ok i => ((some i : Option Nat), [Ev.read (.download u)] ++
          [Ev.delay, Ev.write (.media asset.fileName asset.mimeType)])
      | .error _ => ((none : Option Nat), [Ev.read (.download u)] ++
          [Ev.delay, Ev.write (.media asset.fileName asset.mimeType)])).2.head? =
      some (Ev.read (.download u))
    split
    · rfl
    · rfl

theorem uploadStep_downloadUpdate_head (env : WpEnv) (u : String) :
    (uploadStep env (downloadImageUpdate env u)).2.head? =
      some (Ev.read (.download u)) := by
  have ht := downloadImageUpdate_trace env u
  rcases hd : downloadImageUpdate env u with ⟨o, tr⟩
  rw [hd] at ht
  subst ht
  match o with
  | none => rfl
  | some asset =>
    show (match env.mediaUpload asset with
      | .ok i => ((some i : Option Nat), [Ev.read (.download u)] ++
          [Ev.delay, Ev.write (.media asset.fileName asset.mimeType)])
      | .error _ => ((none : Option Nat), [Ev.read (.download u)] ++
          [Ev.delay, Ev.write (.media asset.fileName asset.mimeType)])).2.head? =
      some (Ev.read (.download u))
    split
    · rfl
    · rfl

/-- C6 counterexample: on the same Drive share link, against a server that
answers every download with an HTML page, create mode rewrites the URL before
fetching and rejects the HTML response (no media id, and the one fetch is of
the rewritten `uc?export=download` URL), while update mode fetches the
original URL unrewritten, performs no HTML check, and uploads the HTML page
as media — the two media paths are not equivalent. -/
theorem C6_counterexample :
    (uploadMediaCreate envHtml driveUrl).1 = none ∧
    (uploadMediaUpdate envHtml driveUrl).1 = some 99 ∧
    (uploadMediaCreate envHtml driveUrl).2 =
      [Ev.read (.download "https://drive.google.com/uc?export=download&id=ABC123")] ∧
    (uploadMediaUpdate envHtml driveUrl).2 =
      [Ev.read (.download "https://drive.google.com/file/d/ABC123/view"), Ev.delay,
        Ev.write (.media "view" "text/html; charset=utf-8")] := by
  refine ⟨by decide, by decide, by decide, by decide⟩

/-- C6 (amended): the two media paths agree only on the local-file branch for
an already-trimmed path; on the URL branch update mode fetches the trimmed
source directly while create mode fetches the Drive-rewritten URL, the
update-mode download accepts every successful response whatever its content
type, and the create-mode download rejects responses whose content type
indicates an HTML document. -/
theorem C6_amended_media_paths :
    (∀ (env : WpEnv) (p : String), isHttp (jsTrim p) = false → jsTrim p = p →
      uploadMediaUpdate env p = uploadMediaCreate env p) ∧
    (∀ (env : WpEnv) (u : String), isHttp (jsTrim u) = true →
      (uploadMediaUpdate env u).2.head? = some (Ev.read (.download (jsTrim u))) ∧
      (uploadMediaCreate env u).2.head? =
        some (Ev.read (.download (convertGoogleDriveUrl (jsTrim u))))) ∧
    (∀ (env : WpEnv) (u : String) (resp : DownloadResp),
      env.download u = .ok resp → (downloadImageUpdate env u).1 ≠ none) ∧
    (∀ (env : WpEnv) (u : String) (resp : DownloadResp) (ct : String),
      env.download u = .ok resp → resp.contentType = some ct →
      strIncludes ct "text/html" = true → (downloadImageCreate env u).1 = none) := by
  refine ⟨?_, ?_, ?_, ?_⟩
  · intro env p hh htrim
    unfold uploadMediaUpdate uploadMediaCreate
    by_cases hz : jsTrim p = ""
    · rw [if_pos hz, if_pos hz]
    · rw [if_neg hz, if_neg hz]
      unfold acquireUpdate acquireCreate
      rw [if_neg (by simp [hh]), if_neg (by simp [hh]), htrim]
  · intro env u hh
    have hz : jsTrim u ≠ "" := by
      intro h
      rw [h] at hh
      exact absurd hh (by decide)
    constructor
    · unfold uploadMediaUpdate
      rw [if_neg hz]
      unfold acquireUpdate
      rw [if_pos hh]
      exact uploadStep_downloadUpdate_head env (jsTrim u)
    · unfold uploadMediaCreate
      rw [if_neg hz]
      unfold acquireCreate
      rw [if_pos hh]
      exact uploadStep_downloadCreate_head env _
  · intro env u resp h
    unfold downloadImageUpdate
    rw [h]
    exact fun hc => Option.noConfusion hc
  · intro env u resp ct h hct hhtml
    unfold downloadImageCreate
    simp [h, hct, hhtml]

theorem C6_amended_witness :
    uploadMediaUpdate envT "local.png" = uploadMediaCreate envT "local.png" :=
  (C6_amended_media_paths).1 envT "local.png" (by decide) (by decide)

/-! ### The Google-Drive URL rewrite (C9) -/

theorem ne_slash_of_idChar {c : Char} (h : idChar c = true) : c ≠ '/' := by
  intro hc
  subst hc
  exact absurd h (by decide)

theorem takeWhile_eq_self_of_all {α} (p : α → Bool) :
    ∀ l : List α, (∀ c ∈ l, p c = true) → List.takeWhile p l = l
  | [], _ => rfl
  | x :: xs, h => by
    rw [List.takeWhile_cons, if_pos (h x (List.mem_cons_self x xs)),
      takeWhile_eq_self_of_all p xs (fun c hc => h c (List.mem_cons_of_mem x hc))]

theorem takeWhile_append_of_all {α} (p : α → Bool) :
    ∀ (xs ys : List α), (∀ c ∈ xs, p c = true) →
      List.takeWhile p (xs ++ ys) = xs ++ List.takeWhile p ys
  | [], ys, _ => rfl
  | x :: xs, ys, h => by
    rw [List.cons_append, List.takeWhile_cons, if_pos (h x (List.mem_cons_self x xs)),
      takeWhile_append_of_all p xs ys (fun c hc => h c (List.mem_cons_of_mem x hc)),
      List.cons_append]

theorem scanSlashD_eq_none :
    ∀ l : List Char, (∀ c ∈ l, c ≠ '/') → scanSlashD l = none := by
  intro l
  induction l with
  | nil => intro _; rfl
  | cons c cs ih =>
    intro h
    unfold scanSlashD
    split
    · rename_i heq
      have hc : c = '/' := by injection heq
      exact absurd hc (h c (List.mem_cons_self c cs))
    · rename_i heq
      injection heq with hc hcs
      rw [← hcs]
      exact ih (fun a ha => h a (List.mem_cons_of_mem c ha))
    · rfl

/-- C9: the Drive rewrite maps a `/d/<ID>` share path and an `id=<ID>` query
parameter (any nonempty identifier over `[a-zA-Z0-9_-]`) to the
direct-download `uc?export=download&id=<ID>` form, leaves a URL without a
recognizable identifier unchanged, and in create mode the one media fetch is
of the rewritten URL — the rewrite happens before the fetch. -/
theorem C9_drive_url_rewrite :
    (∀ (fid suf : List Char), fid ≠ [] → (∀ c ∈ fid, idChar c = true) →
      convertGoogleDriveUrl
          (String.mk ("https://drive.google.com/file/d/".data ++ fid ++ '/' :: suf)) =
        "https://drive.google.com/uc?export=download&id=" ++ String.mk fid) ∧
    (∀ fid : List Char, fid ≠ [] → (∀ c ∈ fid, idChar c = true) →
      convertGoogleDriveUrl
          (String.mk ("https://drive.google.com/open?id=".data ++ fid)) =
        "https://drive.google.com/uc?export=download&id=" ++ String.mk fid) ∧
    (∀ url : String, scanSlashD url.data = none → scanIdEq url.data = none →
      convertGoogleDriveUrl url = url) ∧
    (∀ (env : WpEnv) (u : String), isHttp (jsTrim u) = true →
      (uploadMediaCreate env u).2.head? =
        some (Ev.read (.download (convertGoogleDriveUrl (jsTrim u))))) := by
  refine ⟨?_, ?_, ?_, ?_⟩
  · intro fid suf hne hall
    rcases fid with _ | ⟨f0, frest⟩
    · exact absurd rfl hne
    have h0 : idChar f0 = true := hall f0 (List.mem_cons_self f0 frest)
    have hurl : String.mk
        ("https://drive.google.com/file/d/".data ++ (f0 :: frest) ++ '/' :: suf) ≠ "" := by
      intro hc
      have h2 := congrArg String.data hc
      simp at h2
    have hscan : scanSlashD (String.mk
        ("https://drive.google.com/file/d/".data ++ (f0 :: frest) ++ '/' :: suf)).data =
        some (f0 :: frest) := by
      show (if idChar f0 = true then
              some (f0 :: List.takeWhile idChar (frest ++ '/' :: suf))
            else scanSlashD ('d' :: '/' :: f0 :: (frest ++ '/' :: suf))) =
            some (f0 :: frest)
      rw [if_pos h0, takeWhile_append_of_all idChar frest ('/' :: suf)
        (fun c hc => hall c (List.mem_cons_of_mem f0 hc))]
      have hsl : List.takeWhile idChar ('/' :: suf) = [] := by
        rw [List.takeWhile_cons, if_neg (by decide)]
      rw [hsl, List.append_nil]
    have hinc : strIncludes (String.mk
        ("https://drive.google.com/file/d/".data ++ (f0 :: frest) ++ '/' :: suf))
        "drive.google.com" = true := rfl
    unfold convertGoogleDriveUrl
    rw [if_neg hurl, if_pos hinc, hscan]
  · intro fid hne hall
    rcases fid with _ | ⟨f0, frest⟩
    · exact absurd rfl hne
    have h0 : idChar f0 = true := hall f0 (List.mem_cons_self f0 frest)
    have hurl : String.mk
        ("https://drive.google.com/open?id=".data ++ (f0 :: frest)) ≠ "" := by
      intro hc
      have h2 := congrArg String.data hc
      simp at h2
    have hs1 : scanSlashD (String.mk
        ("https://drive.google.com/open?id=".data ++ (f0 :: frest))).data = none := by
      show scanSlashD (f0 :: frest) = none
      exact scanSlashD_eq_none (f0 :: frest) (fun c hc => ne_slash_of_idChar (hall c hc))
    have hs2 : scanIdEq (String.mk
        ("https://drive.google.com/open?id=".data ++ (f0 :: frest))).data =
        some (f0 :: frest) := by
      show (if idChar f0 = true then some (f0 :: List.takeWhile idChar frest)
            else scanIdEq ('d' :: '=' :: f0 :: frest)) = some (f0 :: frest)
      rw [if_pos h0, takeWhile_eq_self_of_all idChar frest
        (fun c hc => hall c (List.mem_cons_of_mem f0 hc))]
    have hinc : strIncludes (String.mk
        ("https://drive.google.com/open?id=".data ++ (f0 :: frest)))
        "drive.google.com" = true := rfl
    unfold convertGoogleDriveUrl
    rw [if_neg hurl, if_pos hinc, hs1, hs2]
  · intro url h1 h2
    unfold convertGoogleDriveUrl
    split
    · rfl
    · split
      · rw [h1, h2]
      · rfl
  · intro env u hh
    have hz : jsTrim u ≠ "" := by
      intro h
      rw [h] at hh
      exact absurd hh (by decide)
    unfold uploadMediaCreate
    rw [if_neg hz]
    unfold acquireCreate
    rw [if_pos hh]
    exact uploadStep_downloadCreate_head env _

theorem C9_witness :
    convertGoogleDriveUrl
        (String.mk ("https://drive.google.com/file/d/".data ++ "ABC123".data ++
          '/' :: "view".data)) =
      "https://drive.google.com/uc?export=download&id=" ++ String.mk "ABC123".data :=
  (C9_drive_url_rewrite).1 "ABC123".data "view".data (by decide) (by decide)

end Wp
